import Mathlib

/-!
# Shallow embedding of `slide-20-canvas.js` (CloudFront caching-flow animator)

This file embeds the state and the state-transition logic of the canvas
animation component `src/slides/slide-20-canvas.js` and proves/refutes the
frozen claims about it.

Embedding conventions:
* JavaScript numbers are modelled as exact rationals (`ℚ`); array indices that
  the source stores in number variables are modelled as `ℤ` so that negative
  and out-of-range indices behave as in JS (`arr[i]` is `undefined`, modelled
  by `Option`/`none`, see `jsGet`).
* `startAt` may be the IEEE `Infinity` sentinel; that is modelled by the
  two-constructor type `StartAt` (`now >= Infinity` is false, as in JS).
* All drawing calls (`drawDotAlong`, `drawCacheStorePulse`,
  `drawInvalidationPulse`, `drawStaticToBuffer` and the canvas/buffer work)
  only paint pixels and never touch the animator's state; they are omitted.
* `requestAnimationFrame` scheduling is modelled by the boolean `rafId`
  ("a frame callback is scheduled"), `setTimeout` for the auto-replay by the
  boolean `replayTimer` ("a replay timer is pending").  `performance.now()`
  readings are the `now : ℚ` arguments.
* `state.requests[idx - 1]?.state === 'done'` reads the request object that
  the same `forEach` pass has already updated; the folds below thread the
  updated predecessor (`prev`) accordingly.
-/

namespace Slide20

/-- JS array read `arr[i]` for a possibly negative / out-of-range index:
`undefined` is `none`. -/
def jsGet (l : List α) (i : ℤ) : Option α :=
  if 0 ≤ i then l.get? i.toNat else none

/-- JS write `arr[i] = v` through a node reference obtained by `arr[i]`;
out-of-range writes (which cannot happen through a live reference) leave the
list unchanged. -/
def jsSet (l : List α) (i : ℤ) (v : α) : List α :=
  if 0 ≤ i then l.set i.toNat v else l

/-- Validity of `state.layout.users[i]` (only the existence of the user node
matters to the transition logic; its geometry is drawing-only). -/
def jsIdxOk (len : ℕ) (i : ℤ) : Bool :=
  decide (0 ≤ i ∧ i < (len : ℤ))

/-- JS `Math.round` (round half toward +∞). -/
def jround (q : ℚ) : ℤ := ⌊q + 1/2⌋

/-- The `ANIM_CONFIG` record (visual-only entries omitted). -/
structure AnimConfig where
  usersCount : ℕ
  edgesCount : ℕ
  userEdgeMap : List ℤ
  sequential : Bool
  userStaggerMs : ℚ
  requestTravelMs : ℚ
  fetchFromOriginMs : ℚ
  cacheStoreMs : ℚ
  hitTravelMs : ℚ
  gapMs : ℚ
deriving DecidableEq

/-- The shipped configuration. -/
def ANIM_CONFIG : AnimConfig :=
  { usersCount := 4
    edgesCount := 3
    userEdgeMap := [0, 1, 2, 2]
    sequential := true
    userStaggerMs := 350
    requestTravelMs := 1400
    fetchFromOriginMs := 1400
    cacheStoreMs := 900
    hitTravelMs := 700
    gapMs := 700 }

/-- The request lifecycle states of `processRequests`. -/
inductive ReqState where
  | pending
  | traveling_to_edge
  | traveling_to_regional
  | fetching_origin
  | storing_regional
  | storing_edge
  | regional_hit_return
  | returning_to_edge_from_regional
  | edge_hit_return
  | returning_to_user
  | done
deriving DecidableEq, Repr

/-- A request's `startAt`: either a finite clock value or the `Infinity`
sentinel used by sequential batches. -/
inductive StartAt where
  | fin (t : ℚ)
  | inf
deriving DecidableEq, Repr

/-- JS comparison `now >= req.startAt` (false against `Infinity`). -/
def StartAt.reached (now : ℚ) : StartAt → Bool
  | .fin t => decide (t ≤ now)
  | .inf => false

/-- One simulated request. -/
structure Request where
  userIndex : ℤ
  edgeIndex : ℤ
  regionalIndex : ℤ
  startAt : StartAt
  state : ReqState
  t0 : ℚ
deriving DecidableEq, Repr

/-- Invalidation lifecycle states. -/
inductive InvState where
  | traveling
  | pulsing
  | done
deriving DecidableEq, Repr

/-- Invalidation target kind. -/
inductive InvType where
  | edge
  | regional
deriving DecidableEq, Repr

/-- One invalidation event. -/
structure Invalidation where
  type : InvType
  targetIndex : ℤ
  startTime : ℚ
  duration : ℚ
  state : InvState
deriving DecidableEq, Repr

/-- A user node as laid out by `calculateLayoutPositions` (the fields the
transition logic and the click hit-test read). -/
structure UserNode where
  x : ℚ
  y : ℚ
  w : ℚ
  h : ℚ
  assignedEdgeIndex : ℤ
deriving DecidableEq, Repr

/-- The animator's mutable state record (the fields the claims are about;
pure-geometry fields and the offscreen buffer are omitted).  The `cached`
flag lists stand for `state.edgesState` / `state.regionalState` (the other
node fields are drawing-only). -/
structure AnimState where
  isPlaying : Bool
  isFinished : Bool
  destroyed : Bool
  runIndex : ℕ
  replayTimer : Bool
  rafId : Bool
  users : List UserNode
  edgesToRegional : List ℤ
  edgesState : List Bool
  regionalState : List Bool
  requests : List Request
  invalidations : List Invalidation
deriving DecidableEq, Repr

/-- `getDurationForState`. -/
def getDurationForState (c : AnimConfig) : ReqState → ℚ
  | .traveling_to_edge => c.requestTravelMs
  | .traveling_to_regional => c.requestTravelMs
  | .fetching_origin => c.fetchFromOriginMs
  | .storing_regional => c.cacheStoreMs
  | .storing_edge => c.cacheStoreMs
  | .regional_hit_return => c.hitTravelMs
  | .returning_to_edge_from_regional => c.hitTravelMs
  | .returning_to_user => c.hitTravelMs
  | .edge_hit_return => c.hitTravelMs
  | _ => 1000

/-- The per-frame normalized progress
`t = Math.min(1, (now - t0) / duration)`. -/
def progressAt (now t0 dur : ℚ) : ℚ := min 1 ((now - t0) / dur)

/-- `state.requests[indexOf(req) - 1]?.state === 'done'`. -/
def prevDone : Option Request → Bool
  | some p => decide (p.state = .done)
  | none => false

/-- The sequential-mode gate:
`if (sequential && req.startAt === Infinity) { if (pred done) startAt = now }`. -/
def seqGate (c : AnimConfig) (now : ℚ) (prev : Option Request) (req : Request) :
    Request :=
  if c.sequential = true ∧ req.startAt = .inf ∧ prevDone prev = true then
    { req with startAt := .fin now }
  else req

/-- The start gate:
`if (req.state === 'pending' && now >= req.startAt) { state = traveling_to_edge; t0 = now }`. -/
def pendingGate (now : ℚ) (req : Request) : Request :=
  if req.state = .pending ∧ req.startAt.reached now = true then
    { req with state := .traveling_to_edge, t0 := now }
  else req

/-- The per-state `switch` of `processRequests`.  Instead of writing through a
node reference, the two store-completion cases report which flag to set via
the two returned booleans (`set edge cached`, `set regional cached`); the
caller applies the write.  Drawing calls are omitted. -/
def switchStep (c : AnimConfig) (now : ℚ) (edgeCached regionalCached : Bool)
    (req : Request) : Request × Bool × Bool :=
  let t := progressAt now req.t0 (getDurationForState c req.state)
  match req.state with
  | .traveling_to_edge =>
      if 1 ≤ t then
        ({ req with
            state := if edgeCached then .edge_hit_return else .traveling_to_regional
            t0 := now }, false, false)
      else (req, false, false)
  | .traveling_to_regional =>
      if 1 ≤ t then
        ({ req with
            state := if regionalCached then .regional_hit_return else .fetching_origin
            t0 := now }, false, false)
      else (req, false, false)
  | .fetching_origin =>
      if 1 ≤ t then ({ req with state := .storing_regional, t0 := now }, false, false)
      else (req, false, false)
  | .storing_regional =>
      if 1 ≤ t then
        ({ req with state := .returning_to_edge_from_regional, t0 := now }, false, true)
      else (req, false, false)
  | .storing_edge =>
      if 1 ≤ t then ({ req with state := .returning_to_user, t0 := now }, true, false)
      else (req, false, false)
  | .regional_hit_return =>
      if 1 ≤ t then ({ req with state := .storing_edge, t0 := now }, false, false)
      else (req, false, false)
  | .returning_to_edge_from_regional =>
      if 1 ≤ t then ({ req with state := .storing_edge, t0 := now }, false, false)
      else (req, false, false)
  | .edge_hit_return =>
      if 1 ≤ t then ({ req with state := .done }, false, false)
      else (req, false, false)
  | .returning_to_user =>
      if 1 ≤ t then ({ req with state := .done }, false, false)
      else (req, false, false)
  | .pending => (req, false, false)
  | .done => (req, false, false)

/-- The whole `forEach` body of `processRequests` for one request.
Returns the updated request, the updated cached-flag lists, and whether the
request counted as active this frame. -/
def stepRequest (c : AnimConfig) (now : ℚ) (usersLen : ℕ) (prev : Option Request)
    (req : Request) (edges regionals : List Bool) :
    Request × List Bool × List Bool × Bool :=
  if jsIdxOk usersLen req.userIndex = false ∨ jsGet edges req.edgeIndex = none ∨
      jsGet regionals req.regionalIndex = none ∨ req.state = .done then
    (req, edges, regionals, false)
  else
    let req1 := seqGate c now prev req
    let req2 := pendingGate now req1
    if req2.state = .pending then (req2, edges, regionals, false)
    else
      let out := switchStep c now ((jsGet edges req.edgeIndex).getD false)
        ((jsGet regionals req.regionalIndex).getD false) req2
      (out.1,
        (if out.2.1 then jsSet edges req.edgeIndex true else edges),
        (if out.2.2 then jsSet regionals req.regionalIndex true else regionals),
        true)

/-- Result of a `processRequests` pass. -/
structure ProcOut where
  requests : List Request
  edges : List Bool
  regionals : List Bool
  active : ℕ
deriving DecidableEq, Repr

/-- The `forEach` of `processRequests`, threading the cached-flag lists and
the already-updated predecessor. -/
def processRequestsAux (c : AnimConfig) (now : ℚ) (usersLen : ℕ) :
    Option Request → List Request → List Bool → List Bool → ProcOut
  | _, [], es, rs => ⟨[], es, rs, 0⟩
  | prev, r :: tl, es, rs =>
      let st := stepRequest c now usersLen prev r es rs
      let rest := processRequestsAux c now usersLen (some st.1) tl st.2.1 st.2.2.1
      ⟨st.1 :: rest.requests, rest.edges, rest.regionals,
        (if st.2.2.2 then 1 else 0) + rest.active⟩

/-- `processRequests` (drawing omitted; `setActiveCount` is the returned
`active` tally). -/
def processRequests (c : AnimConfig) (now : ℚ) (s : AnimState) : ProcOut :=
  processRequestsAux c now s.users.length none s.requests s.edgesState s.regionalState

/-- The `forEach` body of `processInvalidations` for one event. -/
def stepInvalidation (c : AnimConfig) (now : ℚ) (inv : Invalidation)
    (edges regionals : List Bool) :
    Invalidation × List Bool × List Bool × Bool :=
  if inv.state = .done then (inv, edges, regionals, false)
  else
    let t := progressAt now inv.startTime inv.duration
    let target : Option Bool :=
      match inv.type with
      | .edge => jsGet edges inv.targetIndex
      | .regional => jsGet regionals inv.targetIndex
    match target with
    | none => ({ inv with state := .done }, edges, regionals, true)
    | some _ =>
      match inv.state with
      | .traveling =>
          if 1 ≤ t then
            ({ inv with state := .pulsing, startTime := now, duration := c.cacheStoreMs },
              edges, regionals, true)
          else (inv, edges, regionals, true)
      | .pulsing =>
          if 1 ≤ t then
            (({ inv with state := .done }),
              (match inv.type with
               | .edge => jsSet edges inv.targetIndex false
               | .regional => edges),
              (match inv.type with
               | .edge => regionals
               | .regional => jsSet regionals inv.targetIndex false),
              true)
          else (inv, edges, regionals, true)
      | .done => (inv, edges, regionals, true)

/-- Result of a `processInvalidations` pass. -/
structure InvOut where
  invs : List Invalidation
  edges : List Bool
  regionals : List Bool
  active : ℕ
deriving DecidableEq, Repr

/-- The `forEach` of `processInvalidations`. -/
def processInvalidationsAux (c : AnimConfig) (now : ℚ) :
    List Invalidation → List Bool → List Bool → InvOut
  | [], es, rs => ⟨[], es, rs, 0⟩
  | inv :: tl, es, rs =>
      let st := stepInvalidation c now inv es rs
      let rest := processInvalidationsAux c now tl st.2.1 st.2.2.1
      ⟨st.1 :: rest.invs, rest.edges, rest.regionals,
        (if st.2.2.2 then 1 else 0) + rest.active⟩

/-- `processInvalidations`: the `forEach` followed by
`state.invalidations = state.invalidations.filter(inv => inv.state !== 'done')`. -/
def processInvalidations (c : AnimConfig) (now : ℚ) (s : AnimState) : InvOut :=
  let o := processInvalidationsAux c now s.invalidations s.edgesState s.regionalState
  { o with invs := o.invs.filter (fun inv => decide (inv.state ≠ .done)) }

/-- `calculateLayoutPositions`' per-user edge assignment:
`(map && map[i] !== undefined) ? Math.min(edgesCount - 1, map[i])
 : Math.round(i * (edgesCount - 1) / Math.max(1, usersCount - 1))`. -/
def assignEdgeIndexCalc (c : AnimConfig) (i : ℕ) : ℤ :=
  match c.userEdgeMap.get? i with
  | some v => min ((c.edgesCount : ℤ) - 1) v
  | none => jround ((i : ℚ) * ((c.edgesCount : ℚ) - 1) / max 1 ((c.usersCount : ℚ) - 1))

/-- The user-node part of `calculateLayoutPositions` (positions are exact
rationals; `Math.round` is `jround`). -/
def calcUsers (c : AnimConfig) (width height : ℚ) : List UserNode :=
  let usersX : ℚ := (jround (width * (8 / 100)) : ℤ)
  let verticalMargin : ℚ := 40
  let usableHeight : ℚ := height - verticalMargin * 2
  (List.range c.usersCount).map fun (i : ℕ) =>
    { x := usersX
      y := verticalMargin + usableHeight / ((c.usersCount : ℚ) + 1) * ((i : ℚ) + 1)
      w := 56
      h := 56
      assignedEdgeIndex := assignEdgeIndexCalc c i }

/-- `layout.edgesToRegional = layout.edges.map((_, i) =>
Math.floor(i * regionals.length / edges.length))` with `regionalCount = 2`. -/
def calcEdgesToRegional (c : AnimConfig) : List ℤ :=
  (List.range c.edgesCount).map fun i => ((i * 2 / c.edgesCount : ℕ) : ℤ)

/-- The cached-flag part of `sizeCanvas`'s rebuild:
`layout.map((e, i) => ({..., cached: state.edgesState[i]?.cached || false}))`. -/
def sizeCanvasFlags (oldFlags : List Bool) (count : ℕ) : List Bool :=
  (List.range count).map fun (i : ℕ) => (jsGet oldFlags (i : ℤ)).getD false

/-- The animator's state right after construction plus the first `sizeCanvas`
(all flags cold, no requests, loop marked playing as in the literal `state`
initializer). -/
def initState (c : AnimConfig) (width height : ℚ) : AnimState :=
  { isPlaying := true
    isFinished := false
    destroyed := false
    runIndex := 0
    replayTimer := false
    rafId := false
    users := calcUsers c width height
    edgesToRegional := calcEdgesToRegional c
    edgesState := sizeCanvasFlags [] c.edgesCount
    regionalState := sizeCanvasFlags [] 2
    requests := []
    invalidations := [] }

/-- The request built by `setupRun` for user `i`.  A missing
`layout.users[i]` (impossible for states built by `initState`) is modelled by
an always-invalid `assignedEdgeIndex = -1` default; likewise an out-of-range
`edgesToRegional[edgeIndex]` yields the always-invalid regional index `-1`
(in JS both produce a request whose node lookups fail, which
`processRequests` skips). -/
def setupRequest (c : AnimConfig) (now : ℚ) (s : AnimState) (i : ℕ) : Request :=
  let edgeIndex := (s.users.getD i ⟨0, 0, 0, 0, -1⟩).assignedEdgeIndex
  { userIndex := (i : ℤ)
    edgeIndex := edgeIndex
    regionalIndex := (jsGet s.edgesToRegional edgeIndex).getD (-1)
    startAt := if c.sequential then (if i = 0 then .fin now else .inf)
               else .fin (now + (i : ℚ) * c.userStaggerMs)
    state := .pending
    t0 := 0 }

/-- `setupRun`. -/
def setupRun (c : AnimConfig) (now : ℚ) (s : AnimState) : AnimState :=
  { s with replayTimer := false, isFinished := false,
           requests := (List.range c.usersCount).map (setupRequest c now s),
           runIndex := s.runIndex + 1 }

/-- `startLoop`'s non-finished branch (the body after both early returns).
`restart` reaches exactly this branch because `setupRun` has just cleared
`isFinished`. -/
def startLoopGo (s : AnimState) : AnimState :=
  if s.rafId = true ∨ s.destroyed = true then s
  else { s with isPlaying := true, rafId := true }

/-- `pauseLoop`. -/
def pauseLoop (s : AnimState) : AnimState :=
  if s.rafId = false then s
  else { s with isPlaying := false, rafId := false }

/-- `restart` (its inner `startLoop` call is `startLoopGo` since `setupRun`
cleared `isFinished`). -/
def restart (c : AnimConfig) (now : ℚ) (s : AnimState) : AnimState :=
  startLoopGo (setupRun c now
    { s with runIndex := 0, isFinished := false, replayTimer := false })

/-- `startLoop`. -/
def startLoop (c : AnimConfig) (now : ℚ) (s : AnimState) : AnimState :=
  if s.rafId = true ∨ s.destroyed = true then s
  else if s.isFinished = true then restart c now s
  else { s with isPlaying := true, rafId := true }

/-- The frame-processing middle of `renderFrame`: requests first, then
invalidations, returning the updated state and the total active count. -/
def frameCore (c : AnimConfig) (now : ℚ) (s : AnimState) : AnimState × ℕ :=
  let pr := processRequests c now s
  let s1 := { s with requests := pr.requests, edgesState := pr.edges,
                     regionalState := pr.regionals }
  let pi := processInvalidations c now s1
  ({ s1 with invalidations := pi.invs, edgesState := pi.edges,
             regionalState := pi.regionals },
    pr.active + pi.active)

/-- The termination branch of `renderFrame` (the `else if` after the frame
found no active animation): mark finished, schedule the auto-replay when the
run index is 1, no timer is pending, a cache is warm and the batch is
nonempty, then pause. -/
def finishStep (s2 : AnimState) : AnimState :=
  if s2.isFinished = false then
    let s3 : AnimState := { s2 with isFinished := true }
    let s4 : AnimState := if s3.runIndex = 1 ∧ s3.replayTimer = false ∧
        (s3.edgesState.any (fun b => b) || s3.regionalState.any (fun b => b)) = true ∧
        0 < s3.requests.length then
        { s3 with replayTimer := true }
      else s3
    pauseLoop s4
  else s2

/-- `renderFrame` (canvas blits omitted; `requestAnimationFrame` is
`rafId := true`, `setTimeout(..., gapMs)` is `replayTimer := true`). -/
def renderFrame (c : AnimConfig) (now : ℚ) (s : AnimState) : AnimState :=
  let s := if s.requests = [] ∧ s.isFinished = false ∧ s.invalidations = [] then
      setupRun c now s
    else s
  let fc := frameCore c now s
  if 0 < fc.2 then { fc.1 with rafId := true }
  else finishStep fc.1

/-- `clearCache` (the final synchronous `renderFrame(performance.now())`
included). -/
def clearCache (c : AnimConfig) (now : ℚ) (s : AnimState) : AnimState :=
  renderFrame c now
    { s with edgesState := s.edgesState.map fun _ => false,
             regionalState := s.regionalState.map fun _ => false,
             replayTimer := false, isFinished := true }

/-- `invalidateAllCaches` (regionals enqueued before edges, as in the source;
its trailing `startLoop` call runs with `isFinished` just cleared). -/
def invalidateAllCaches (c : AnimConfig) (now : ℚ) (s : AnimState) : AnimState :=
  let invalidationTravelTime : ℚ := 800
  let s1 := { s with invalidations :=
    s.invalidations
      ++ (s.regionalState.enum.filterMap fun p =>
            if p.2 then
              some ({ type := .regional, targetIndex := (p.1 : ℤ), startTime := now,
                      duration := invalidationTravelTime, state := .traveling } : Invalidation)
            else none)
      ++ (s.edgesState.enum.filterMap fun p =>
            if p.2 then
              some ({ type := .edge, targetIndex := (p.1 : ℤ), startTime := now,
                      duration := invalidationTravelTime + 400, state := .traveling } : Invalidation)
            else none) }
  if s1.isPlaying = false then startLoop c now { s1 with isFinished := false } else s1

/-- The `forEach` body of `onCanvasClick` for one user node. -/
def clickUserStep (c : AnimConfig) (now clickX clickY : ℚ) (index : ℕ)
    (user : UserNode) (s : AnimState) : AnimState :=
  let radius := min user.w user.h / 2
  let dx := clickX - user.x
  let dy := clickY - user.y
  if dx * dx + dy * dy ≤ radius * radius then
    if s.requests.any (fun r => decide (r.userIndex = (index : ℤ) ∧ r.state ≠ .done)) then s
    else
      let edgeIndex := user.assignedEdgeIndex
      let s1 := { s with requests := s.requests ++
        [({ userIndex := (index : ℤ)
            edgeIndex := edgeIndex
            regionalIndex := (jsGet s.edgesToRegional edgeIndex).getD (-1)
            startAt := .fin now
            state := .pending
            t0 := 0 } : Request)] }
      if s1.isPlaying = false then startLoop c now { s1 with isFinished := false } else s1
  else s

/-- `onCanvasClick` with the click point already translated to canvas
coordinates (the `getBoundingClientRect` subtraction). -/
def onCanvasClick (c : AnimConfig) (now clickX clickY : ℚ) (s : AnimState) : AnimState :=
  if s.destroyed = true then s
  else s.users.enum.foldl
    (fun acc p => clickUserStep c now clickX clickY p.1 p.2 acc) s

/-- `destroy` (listener removal is outside the state record). -/
def destroy (s : AnimState) : AnimState :=
  { pauseLoop { s with destroyed := true } with replayTimer := false }

/-- `start()` = `sizeCanvas(); setupRun(); startLoop();` on a fresh state. -/
def startAnim (c : AnimConfig) (now width height : ℚ) : AnimState :=
  startLoop c now (setupRun c now (initState c width height))

/-! ## Specification predicates (for the claim statements) -/

/-- The successor relation of the spec's request state chain:
`pending → traveling_to_edge → {traveling_to_regional | edge_hit_return} →
{fetching_origin | regional_hit_return} → storing_regional →
returning_to_edge_from_regional → storing_edge → returning_to_user → done`,
with `edge_hit_return` going directly to `done` and `regional_hit_return`
continuing at the edge-tier store. -/
def chainSucc : ReqState → ReqState → Bool
  | .pending, .traveling_to_edge => true
  | .traveling_to_edge, .traveling_to_regional => true
  | .traveling_to_edge, .edge_hit_return => true
  | .traveling_to_regional, .fetching_origin => true
  | .traveling_to_regional, .regional_hit_return => true
  | .fetching_origin, .storing_regional => true
  | .storing_regional, .returning_to_edge_from_regional => true
  | .returning_to_edge_from_regional, .storing_edge => true
  | .regional_hit_return, .storing_edge => true
  | .storing_edge, .returning_to_user => true
  | .returning_to_user, .done => true
  | .edge_hit_return, .done => true
  | _, _ => false

/-- Sequential-batch invariant between a request and its immediate
predecessor: while it is still `pending` its start time is the `Infinity`
sentinel, and once it is past `pending` its predecessor is `done`. -/
def seqPairOK (a b : Request) : Prop :=
  (b.state = .pending → b.startAt = .inf) ∧ (b.state ≠ .pending → a.state = .done)

/-- "User `i` has a request in flight" (the guard of `onCanvasClick`). -/
def inFlightFor (i : ℤ) (r : Request) : Bool :=
  decide (r.userIndex = i ∧ r.state ≠ .done)

/-- "Request belongs to user `i`". -/
def byUser (i : ℤ) (r : Request) : Bool := decide (r.userIndex = i)

/-! ## Concrete executions (used by counterexamples and witnesses)

The frame times below step each request exactly at its transition
boundaries; they were derived from the configured durations
(travel 1400, fetch 1400, store 900, hit 700 ms). -/

/-- Frame times of the first run (all caches cold, sequential). -/
def run1Times : List ℚ :=
  [0, 1400, 2800, 4200, 5100, 5800, 6700, 7400,
   8800, 10200, 10900, 11800, 12500,
   13900, 15300, 16700, 17600, 18300, 19200, 19900,
   21300, 22000, 22100]

/-- The state at `start()` on a 600×420 canvas at clock 0. -/
def cfStart : AnimState := startAnim ANIM_CONFIG 0 600 420

/-- The state after the first run has finished (all three edges and both
regionals warm, auto-replay scheduled, loop paused). -/
def cfAfterRun1 : AnimState :=
  run1Times.foldl (fun s t => renderFrame ANIM_CONFIG t s) cfStart

/-- `restart()` pressed at clock 23000, with every cache still warm. -/
def cfRestartWarm : AnimState := restart ANIM_CONFIG 23000 cfAfterRun1

/-- Frame times of the run after the warm restart (every request is an edge
hit). -/
def warmRunTimes : List ℚ :=
  [23000, 24400, 25100, 26500, 27200, 28600, 29300, 30700, 31400, 31500]

/-- All states traversed by the warm run, starting point included. -/
def warmRunTrace : List AnimState :=
  warmRunTimes.scanl (fun s t => renderFrame ANIM_CONFIG t s) cfRestartWarm

/-- A paused, finished state with one warm edge and one warm regional and no
traffic (reachable: pause after a finished run, e.g. `cfAfterRun1` is of
this shape). -/
def sWarmIdle : AnimState :=
  { isPlaying := false, isFinished := true, destroyed := false, runIndex := 2,
    replayTimer := false, rafId := false, users := [], edgesToRegional := [0],
    edgesState := [true], regionalState := [true], requests := [],
    invalidations := [] }

/-- A paused, finished state with every cache cold and no traffic. -/
def sColdIdle : AnimState :=
  { isPlaying := false, isFinished := true, destroyed := false, runIndex := 2,
    replayTimer := false, rafId := false, users := [], edgesToRegional := [0],
    edgesState := [false], regionalState := [false], requests := [],
    invalidations := [] }

/-- A request completing its edge-tier store (entered `storing_edge` at
clock 0; the store lasts 900). -/
def wReq : Request :=
  { userIndex := 0, edgeIndex := 0, regionalIndex := 0,
    startAt := .fin 0, state := .storing_edge, t0 := 0 }

/-- `wReq` one frame later, at clock 1000. -/
def wReq2 : Request :=
  { userIndex := 0, edgeIndex := 0, regionalIndex := 0,
    startAt := .fin 0, state := .returning_to_user, t0 := 1000 }

/-- A pending request whose finite start time 0 has been reached. -/
def wPend : Request :=
  { userIndex := 0, edgeIndex := 0, regionalIndex := 0,
    startAt := .fin 0, state := .pending, t0 := 0 }

/-- A playing state whose single request is completing its edge-tier store
at clock 1000. -/
def sStoring : AnimState :=
  { isPlaying := true, isFinished := false, destroyed := false, runIndex := 1,
    replayTimer := false, rafId := true,
    users := [⟨48, 108, 56, 56, 0⟩], edgesToRegional := [0],
    edgesState := [false], regionalState := [true],
    requests := [wReq],
    invalidations := [] }

/-- A playing, unfinished state whose only request is already `done` and
whose edge cache is warm: the next frame finishes the (index-1) run. -/
def sRunDone : AnimState :=
  { sStoring with requests := [{ wReq with state := .done }],
                  edgesState := [true] }

/-- A destroyed state (for the C10 witness). -/
def sDestroyed : AnimState :=
  { sColdIdle with destroyed := true }

/-! ## Helper lemmas: JS array reads and writes -/

lemma jsGet_jsSet (l : List α) (k i : ℤ) (v : α) :
    jsGet (jsSet l k v) i = if i = k then (jsGet l i).map (fun _ => v) else jsGet l i := by
  unfold jsGet jsSet
  by_cases h1 : 0 ≤ i
  · by_cases h2 : 0 ≤ k
    · by_cases h3 : i = k
      · subst h3
        simp only [if_pos h1, List.get?_set, if_pos rfl]
        rfl
      · simp only [if_pos h1, if_pos h2, if_neg h3, List.get?_set,
          if_neg (show ¬ k.toNat = i.toNat by omega)]
    · simp only [if_pos h1, if_neg h2, if_neg (show ¬ i = k by omega)]
  · simp only [if_neg h1]
    split_ifs <;> rfl

lemma jsGet_jsSet_true_of_true (l : List Bool) (k i : ℤ)
    (h : jsGet l i = some true) : jsGet (jsSet l k true) i = some true := by
  rw [jsGet_jsSet]
  split_ifs with he
  · rw [h]; rfl
  · exact h

lemma jsGet_jsSet_false_of_false (l : List Bool) (k i : ℤ)
    (h : jsGet l i = some false) : jsGet (jsSet l k false) i = some false := by
  rw [jsGet_jsSet]
  split_ifs with he
  · rw [h]; rfl
  · exact h

/-! ## Helper lemmas: the request-step phases -/

lemma seqGate_cases (c : AnimConfig) (now : ℚ) (prev : Option Request) (r : Request) :
    seqGate c now prev r = r ∨
      (seqGate c now prev r = { r with startAt := .fin now } ∧ r.startAt = .inf ∧
        prevDone prev = true) := by
  unfold seqGate
  split_ifs with h
  · exact Or.inr ⟨rfl, h.2.1, h.2.2⟩
  · exact Or.inl rfl

lemma seqGate_state (c : AnimConfig) (now : ℚ) (prev : Option Request) (r : Request) :
    (seqGate c now prev r).state = r.state := by
  unfold seqGate; split_ifs <;> rfl

lemma seqGate_t0 (c : AnimConfig) (now : ℚ) (prev : Option Request) (r : Request) :
    (seqGate c now prev r).t0 = r.t0 := by
  unfold seqGate; split_ifs <;> rfl

lemma seqGate_edgeIndex (c : AnimConfig) (now : ℚ) (prev : Option Request) (r : Request) :
    (seqGate c now prev r).edgeIndex = r.edgeIndex := by
  unfold seqGate; split_ifs <;> rfl

lemma seqGate_regionalIndex (c : AnimConfig) (now : ℚ) (prev : Option Request) (r : Request) :
    (seqGate c now prev r).regionalIndex = r.regionalIndex := by
  unfold seqGate; split_ifs <;> rfl

lemma pendingGate_cases (now : ℚ) (r : Request) :
    pendingGate now r = r ∨
      (pendingGate now r = { r with state := .traveling_to_edge, t0 := now } ∧
        r.state = .pending ∧ r.startAt.reached now = true) := by
  unfold pendingGate
  split_ifs with h
  · exact Or.inr ⟨rfl, h.1, h.2⟩
  · exact Or.inl rfl

lemma pendingGate_of_ne (now : ℚ) (r : Request) (h : r.state ≠ .pending) :
    pendingGate now r = r := by
  unfold pendingGate
  rw [if_neg (by tauto)]

/-- `1 ≤ t` is false at `t = min 1 ((now - now) / d)`. -/
lemma progressAt_now_lt (now d : ℚ) : ¬ (1 : ℚ) ≤ progressAt now now d := by
  unfold progressAt
  rw [sub_self, zero_div, min_eq_right zero_le_one]
  norm_num

/-- Entering `traveling_to_edge` this frame means `t = 0`, so the switch does
not advance it again within the same frame. -/
lemma switchStep_fresh (c : AnimConfig) (now : ℚ) (ec rc : Bool) (r : Request) :
    switchStep c now ec rc { r with state := .traveling_to_edge, t0 := now } =
      ({ r with state := .traveling_to_edge, t0 := now }, false, false) := by
  rcases r with ⟨ui, ei, ri, sa, st, t0⟩
  simp [switchStep, progressAt_now_lt]

lemma switchStep_state_chain (c : AnimConfig) (now : ℚ) (ec rc : Bool) (r : Request) :
    (switchStep c now ec rc r).1.state = r.state ∨
      chainSucc r.state (switchStep c now ec rc r).1.state = true := by
  rcases r with ⟨ui, ei, ri, sa, st, t0⟩
  cases st <;> simp only [switchStep] <;> (try split_ifs) <;>
    cases ec <;> cases rc <;> simp [chainSucc]

lemma switchStep_preserve (c : AnimConfig) (now : ℚ) (ec rc : Bool) (r : Request) :
    (switchStep c now ec rc r).1.userIndex = r.userIndex ∧
    (switchStep c now ec rc r).1.edgeIndex = r.edgeIndex ∧
    (switchStep c now ec rc r).1.regionalIndex = r.regionalIndex ∧
    (switchStep c now ec rc r).1.startAt = r.startAt := by
  rcases r with ⟨ui, ei, ri, sa, st, t0⟩
  cases st <;> simp only [switchStep] <;> (try split_ifs) <;>
    cases ec <;> cases rc <;> simp

lemma switchStep_not_pending (c : AnimConfig) (now : ℚ) (ec rc : Bool) (r : Request)
    (h : r.state ≠ .pending) : (switchStep c now ec rc r).1.state ≠ .pending := by
  rcases r with ⟨ui, ei, ri, sa, st, t0⟩
  cases st <;> simp only [switchStep] <;> (try split_ifs) <;>
    cases ec <;> cases rc <;> simp_all

lemma switchStep_edge_flag (c : AnimConfig) (now : ℚ) (ec rc : Bool) (r : Request)
    (h : (switchStep c now ec rc r).2.1 = true) :
    r.state = .storing_edge ∧
      1 ≤ progressAt now r.t0 (getDurationForState c .storing_edge) := by
  rcases r with ⟨ui, ei, ri, sa, st, t0⟩
  cases st <;> simp only [switchStep] at h ⊢ <;> (try split_ifs at h) <;>
    cases ec <;> cases rc <;> simp_all

lemma switchStep_regional_flag (c : AnimConfig) (now : ℚ) (ec rc : Bool) (r : Request)
    (h : (switchStep c now ec rc r).2.2 = true) :
    r.state = .storing_regional ∧
      1 ≤ progressAt now r.t0 (getDurationForState c .storing_regional) := by
  rcases r with ⟨ui, ei, ri, sa, st, t0⟩
  cases st <;> simp only [switchStep] at h ⊢ <;> (try split_ifs at h) <;>
    cases ec <;> cases rc <;> simp_all

/-! ## Helper lemmas: `stepRequest` -/

/-- A `done` request is skipped unchanged. -/
lemma stepRequest_done (c : AnimConfig) (now : ℚ) (u : ℕ) (prev : Option Request)
    (req : Request) (es rs : List Bool) (h : req.state = .done) :
    stepRequest c now u prev req es rs = (req, es, rs, false) := by
  unfold stepRequest
  rw [if_pos (by tauto)]

/-- `pendingGate` does not fire on an `Infinity` start time. -/
lemma pendingGate_inf (now : ℚ) (r : Request) (hinf : r.startAt = .inf) :
    pendingGate now r = r := by
  unfold pendingGate
  rw [if_neg]
  rintro ⟨-, hr⟩
  rw [hinf] at hr
  simp [StartAt.reached] at hr

/-- The two gates followed by the switch move the state along the chain. -/
lemma gates_switch_chain (c : AnimConfig) (now : ℚ) (ec rc : Bool)
    (prev : Option Request) (req : Request) :
    (switchStep c now ec rc (pendingGate now (seqGate c now prev req))).1.state = req.state ∨
      chainSucc req.state
        (switchStep c now ec rc (pendingGate now (seqGate c now prev req))).1.state = true := by
  rcases pendingGate_cases now (seqGate c now prev req) with he | ⟨he, hpend, _⟩
  · rw [he]
    rcases switchStep_state_chain c now ec rc (seqGate c now prev req) with hs | hs
    · rw [seqGate_state] at hs
      exact Or.inl hs
    · rw [seqGate_state] at hs
      exact Or.inr hs
  · rw [he, switchStep_fresh]
    rw [seqGate_state] at hpend
    rw [hpend]
    exact Or.inr rfl

/-- One frame moves a request along the spec chain or leaves it in place. -/
lemma stepRequest_state_chain (c : AnimConfig) (now : ℚ) (u : ℕ) (prev : Option Request)
    (req : Request) (es rs : List Bool) :
    (stepRequest c now u prev req es rs).1.state = req.state ∨
      chainSucc req.state (stepRequest c now u prev req es rs).1.state = true := by
  simp only [stepRequest]
  split_ifs with hg hp ha hb hc
  · exact Or.inl rfl
  · rcases pendingGate_cases now (seqGate c now prev req) with he | ⟨he, hpend, _⟩
    · rw [he]
      exact Or.inl (seqGate_state c now prev req)
    · rw [he] at hp
      simp at hp
  all_goals exact gates_switch_chain c now _ _ prev req

/-- Only a `pending` request can stay (or be) `pending` after a frame, and
then its `startAt` is untouched. -/
lemma stepRequest_pending_source (c : AnimConfig) (now : ℚ) (u : ℕ)
    (prev : Option Request) (req : Request) (es rs : List Bool)
    (h : (stepRequest c now u prev req es rs).1.state = .pending) :
    req.state = .pending ∧ (stepRequest c now u prev req es rs).1.startAt = req.startAt := by
  revert h
  simp only [stepRequest]
  split_ifs with hg hp ha hb hc
  · intro h
    exact ⟨h, rfl⟩
  · intro _
    rcases pendingGate_cases now (seqGate c now prev req) with he | ⟨he, _, _⟩
    · have hreqpend : req.state = .pending := by
        rw [← seqGate_state c now prev req, ← he]
        exact hp
      refine ⟨hreqpend, ?_⟩
      show (pendingGate now (seqGate c now prev req)).startAt = req.startAt
      rcases seqGate_cases c now prev req with hq | ⟨hq, _, _⟩
      · rw [he, hq]
      · exfalso
        have hfired : pendingGate now (seqGate c now prev req) =
            { seqGate c now prev req with state := .traveling_to_edge, t0 := now } := by
          unfold pendingGate
          rw [if_pos ⟨by rw [seqGate_state]; exact hreqpend,
            by rw [hq]; simp [StartAt.reached]⟩]
        rw [hfired] at hp
        simp at hp
    · rw [he] at hp
      simp at hp
  all_goals
    intro h
    exact absurd h (switchStep_not_pending _ _ _ _ _ hp)

/-- A pending request with the `Infinity` sentinel leaves `pending` only if
the (already-updated) predecessor is `done`. -/
lemma stepRequest_needs_prev (c : AnimConfig) (now : ℚ) (u : ℕ)
    (prev : Option Request) (req : Request) (es rs : List Bool)
    (hpend : req.state = .pending) (hinf : req.startAt = .inf)
    (h : (stepRequest c now u prev req es rs).1.state ≠ .pending) :
    prevDone prev = true := by
  revert h
  simp only [stepRequest]
  split_ifs with hg hp ha hb hc
  · intro h
    exact absurd hpend h
  · intro h
    exact absurd hp h
  all_goals
    refine fun _ => (seqGate_cases c now prev req).elim
      (fun hq => absurd ?_ hp) (fun hfire => hfire.2.2)
  all_goals
    rw [hq, pendingGate_inf now req hinf]
    exact hpend

/-- A pending request with a reached finite start time starts traveling this
frame, whatever the predecessor's state is. -/
lemma stepRequest_finite_start (c : AnimConfig) (now : ℚ) (u : ℕ)
    (prev : Option Request) (req : Request) (es rs : List Bool) (T : ℚ)
    (hpend : req.state = .pending) (hfin : req.startAt = .fin T) (hT : T ≤ now)
    (hu : jsIdxOk u req.userIndex = true)
    (he : jsGet es req.edgeIndex ≠ none) (hr : jsGet rs req.regionalIndex ≠ none) :
    (stepRequest c now u prev req es rs).1.state = .traveling_to_edge := by
  have hq : seqGate c now prev req = req := by
    unfold seqGate
    rw [if_neg]
    rintro ⟨-, hi, -⟩
    rw [hfin] at hi
    exact StartAt.noConfusion hi
  have hpg : pendingGate now req = { req with state := .traveling_to_edge, t0 := now } := by
    unfold pendingGate
    rw [if_pos ⟨hpend, by rw [hfin]; simpa [StartAt.reached] using hT⟩]
  simp only [stepRequest]
  rw [if_neg (by simp [hu, he, hr, hpend])]
  simp only [hq, hpg]
  rw [if_neg (by simp), switchStep_fresh]

/-- Transfer of the switch's edge-store flag through the gates. -/
lemma gates_switch_edge_flag (c : AnimConfig) (now : ℚ) (ec rc : Bool)
    (prev : Option Request) (req : Request)
    (h : (switchStep c now ec rc (pendingGate now (seqGate c now prev req))).2.1 = true) :
    req.state = .storing_edge ∧
      1 ≤ progressAt now req.t0 (getDurationForState c .storing_edge) := by
  rcases switchStep_edge_flag c now ec rc _ h with ⟨hst, ht⟩
  have hr2e : pendingGate now (seqGate c now prev req) = seqGate c now prev req := by
    rcases pendingGate_cases now (seqGate c now prev req) with he | ⟨he, _, _⟩
    · exact he
    · rw [he] at hst
      simp at hst
  rw [hr2e] at hst ht
  rw [seqGate_state] at hst
  rw [seqGate_t0] at ht
  exact ⟨hst, ht⟩

/-- Transfer of the switch's regional-store flag through the gates. -/
lemma gates_switch_regional_flag (c : AnimConfig) (now : ℚ) (ec rc : Bool)
    (prev : Option Request) (req : Request)
    (h : (switchStep c now ec rc (pendingGate now (seqGate c now prev req))).2.2 = true) :
    req.state = .storing_regional ∧
      1 ≤ progressAt now req.t0 (getDurationForState c .storing_regional) := by
  rcases switchStep_regional_flag c now ec rc _ h with ⟨hst, ht⟩
  have hr2e : pendingGate now (seqGate c now prev req) = seqGate c now prev req := by
    rcases pendingGate_cases now (seqGate c now prev req) with he | ⟨he, _, _⟩
    · exact he
    · rw [he] at hst
      simp at hst
  rw [hr2e] at hst ht
  rw [seqGate_state] at hst
  rw [seqGate_t0] at ht
  exact ⟨hst, ht⟩

/-- The cached-flag lists after one request step: unchanged, or written by
the corresponding store completion. -/
lemma stepRequest_edges_cases (c : AnimConfig) (now : ℚ) (u : ℕ)
    (prev : Option Request) (req : Request) (es rs : List Bool) :
    (stepRequest c now u prev req es rs).2.1 = es ∨
      (req.state = .storing_edge ∧
        1 ≤ progressAt now req.t0 (getDurationForState c .storing_edge) ∧
        (stepRequest c now u prev req es rs).2.1 = jsSet es req.edgeIndex true) := by
  simp only [stepRequest]
  split_ifs with hg hp ha hb hc
  · exact Or.inl rfl
  · exact Or.inl rfl
  · rcases gates_switch_edge_flag c now _ _ prev req ha with ⟨hst, ht⟩
    exact Or.inr ⟨hst, ht, rfl⟩
  · rcases gates_switch_edge_flag c now _ _ prev req ha with ⟨hst, ht⟩
    exact Or.inr ⟨hst, ht, rfl⟩
  · exact Or.inl rfl
  · exact Or.inl rfl

lemma stepRequest_regionals_cases (c : AnimConfig) (now : ℚ) (u : ℕ)
    (prev : Option Request) (req : Request) (es rs : List Bool) :
    (stepRequest c now u prev req es rs).2.2.1 = rs ∨
      (req.state = .storing_regional ∧
        1 ≤ progressAt now req.t0 (getDurationForState c .storing_regional) ∧
        (stepRequest c now u prev req es rs).2.2.1 = jsSet rs req.regionalIndex true) := by
  simp only [stepRequest]
  split_ifs with hg hp ha hb hc
  · exact Or.inl rfl
  · exact Or.inl rfl
  · rcases gates_switch_regional_flag c now _ _ prev req hb with ⟨hst, ht⟩
    exact Or.inr ⟨hst, ht, rfl⟩
  · exact Or.inl rfl
  · rcases gates_switch_regional_flag c now _ _ prev req hc with ⟨hst, ht⟩
    exact Or.inr ⟨hst, ht, rfl⟩
  · exact Or.inl rfl

/-- `processRequests` never clears a cached flag (edge side). -/
lemma stepRequest_edges_mono (c : AnimConfig) (now : ℚ) (u : ℕ)
    (prev : Option Request) (req : Request) (es rs : List Bool) (i : ℤ)
    (h : jsGet es i = some true) :
    jsGet (stepRequest c now u prev req es rs).2.1 i = some true := by
  rcases stepRequest_edges_cases c now u prev req es rs with he | ⟨_, _, he⟩
  · rw [he]; exact h
  · rw [he]; exact jsGet_jsSet_true_of_true _ _ _ h

/-- `processRequests` never clears a cached flag (regional side). -/
lemma stepRequest_regionals_mono (c : AnimConfig) (now : ℚ) (u : ℕ)
    (prev : Option Request) (req : Request) (es rs : List Bool) (i : ℤ)
    (h : jsGet rs i = some true) :
    jsGet (stepRequest c now u prev req es rs).2.2.1 i = some true := by
  rcases stepRequest_regionals_cases c now u prev req es rs with he | ⟨_, _, he⟩
  · rw [he]; exact h
  · rw [he]; exact jsGet_jsSet_true_of_true _ _ _ h

/-! ## Helper lemmas: the `processRequests` fold -/

lemma processRequestsAux_length (c : AnimConfig) (now : ℚ) (u : ℕ) :
    ∀ (l : List Request) (prev : Option Request) (es rs : List Bool),
      (processRequestsAux c now u prev l es rs).requests.length = l.length := by
  intro l
  induction l with
  | nil => intro prev es rs; rfl
  | cons r tl ih =>
      intro prev es rs
      simp only [processRequestsAux, List.length_cons]
      rw [ih]

lemma processRequestsAux_get (c : AnimConfig) (now : ℚ) (u : ℕ) :
    ∀ (l : List Request) (prev : Option Request) (es rs : List Bool) (i : ℕ)
      (r r' : Request), l.get? i = some r →
      (processRequestsAux c now u prev l es rs).requests.get? i = some r' →
      r'.state = r.state ∨ chainSucc r.state r'.state = true := by
  intro l
  induction l with
  | nil => intro prev es rs i r r' h; simp at h
  | cons hd tl ih =>
      intro prev es rs i r r' h h'
      cases i with
      | zero =>
          simp only [List.get?_cons_zero, Option.some.injEq] at h
          simp only [processRequestsAux, List.get?_cons_zero, Option.some.injEq] at h'
          rw [← h, ← h']
          exact stepRequest_state_chain c now u prev hd es rs
      | succ j =>
          simp only [List.get?_cons_succ] at h
          simp only [processRequestsAux, List.get?_cons_succ] at h'
          exact ih _ _ _ j r r' h h'

lemma processRequestsAux_edges_mono (c : AnimConfig) (now : ℚ) (u : ℕ) :
    ∀ (l : List Request) (prev : Option Request) (es rs : List Bool) (i : ℤ),
      jsGet es i = some true →
      jsGet (processRequestsAux c now u prev l es rs).edges i = some true := by
  intro l
  induction l with
  | nil => intro prev es rs i h; exact h
  | cons hd tl ih =>
      intro prev es rs i h
      simp only [processRequestsAux]
      exact ih _ _ _ i (stepRequest_edges_mono c now u prev hd es rs i h)

lemma processRequestsAux_regionals_mono (c : AnimConfig) (now : ℚ) (u : ℕ) :
    ∀ (l : List Request) (prev : Option Request) (es rs : List Bool) (i : ℤ),
      jsGet rs i = some true →
      jsGet (processRequestsAux c now u prev l es rs).regionals i = some true := by
  intro l
  induction l with
  | nil => intro prev es rs i h; exact h
  | cons hd tl ih =>
      intro prev es rs i h
      simp only [processRequestsAux]
      exact ih _ _ _ i (stepRequest_regionals_mono c now u prev hd es rs i h)

/-- An edge flag that ends `true` was already `true` or was set by a request
completing its `storing_edge` phase this frame. -/
lemma processRequestsAux_edges_flip (c : AnimConfig) (now : ℚ) (u : ℕ) :
    ∀ (l : List Request) (prev : Option Request) (es rs : List Bool) (i : ℤ),
      jsGet (processRequestsAux c now u prev l es rs).edges i = some true →
      jsGet es i = some true ∨
        ∃ r ∈ l, r.state = .storing_edge ∧ r.edgeIndex = i ∧
          1 ≤ progressAt now r.t0 (getDurationForState c .storing_edge) := by
  intro l
  induction l with
  | nil => intro prev es rs i h; exact Or.inl h
  | cons hd tl ih =>
      intro prev es rs i h
      simp only [processRequestsAux] at h
      rcases ih _ _ _ i h with h1 | ⟨r, hr, hprop⟩
      · rcases stepRequest_edges_cases c now u prev hd es rs with he | ⟨hst, ht, he⟩
        · rw [he] at h1
          exact Or.inl h1
        · rw [he, jsGet_jsSet] at h1
          by_cases hik : i = hd.edgeIndex
          · rw [if_pos hik] at h1
            cases hg : jsGet es i with
            | none => rw [hg] at h1; exact Option.noConfusion h1
            | some b =>
                cases b with
                | true => exact Or.inl rfl
                | false => exact Or.inr ⟨hd, List.mem_cons_self hd tl, hst, hik.symm, ht⟩
          · rw [if_neg hik] at h1
            exact Or.inl h1
      · exact Or.inr ⟨r, List.mem_cons_of_mem hd hr, hprop⟩

/-- Regional analogue of `processRequestsAux_edges_flip`. -/
lemma processRequestsAux_regionals_flip (c : AnimConfig) (now : ℚ) (u : ℕ) :
    ∀ (l : List Request) (prev : Option Request) (es rs : List Bool) (i : ℤ),
      jsGet (processRequestsAux c now u prev l es rs).regionals i = some true →
      jsGet rs i = some true ∨
        ∃ r ∈ l, r.state = .storing_regional ∧ r.regionalIndex = i ∧
          1 ≤ progressAt now r.t0 (getDurationForState c .storing_regional) := by
  intro l
  induction l with
  | nil => intro prev es rs i h; exact Or.inl h
  | cons hd tl ih =>
      intro prev es rs i h
      simp only [processRequestsAux] at h
      rcases ih _ _ _ i h with h1 | ⟨r, hr, hprop⟩
      · rcases stepRequest_regionals_cases c now u prev hd es rs with he | ⟨hst, ht, he⟩
        · rw [he] at h1
          exact Or.inl h1
        · rw [he, jsGet_jsSet] at h1
          by_cases hik : i = hd.regionalIndex
          · rw [if_pos hik] at h1
            cases hg : jsGet rs i with
            | none => rw [hg] at h1; exact Option.noConfusion h1
            | some b =>
                cases b with
                | true => exact Or.inl rfl
                | false => exact Or.inr ⟨hd, List.mem_cons_self hd tl, hst, hik.symm, ht⟩
          · rw [if_neg hik] at h1
            exact Or.inl h1
      · exact Or.inr ⟨r, List.mem_cons_of_mem hd hr, hprop⟩

/-- Processing a prefix is unaffected by what follows it. -/
lemma processRequestsAux_take (c : AnimConfig) (now : ℚ) (u : ℕ) :
    ∀ (l1 l2 : List Request) (prev : Option Request) (es rs : List Bool),
      (processRequestsAux c now u prev (l1 ++ l2) es rs).requests.take l1.length =
        (processRequestsAux c now u prev l1 es rs).requests := by
  intro l1
  induction l1 with
  | nil => intro l2 prev es rs; rfl
  | cons hd tl ih =>
      intro l2 prev es rs
      simp only [List.cons_append, processRequestsAux, List.length_cons, List.take_succ_cons]
      exact congrArg ((stepRequest c now u prev hd es rs).1 :: ·) (ih l2 _ _ _)

/-- `done` is terminal for one step. -/
lemma stepRequest_done_state (c : AnimConfig) (now : ℚ) (u : ℕ)
    (prev : Option Request) (req : Request) (es rs : List Bool)
    (h : req.state = .done) :
    (stepRequest c now u prev req es rs).1.state = .done := by
  rw [stepRequest_done c now u prev req es rs h]
  exact h

/-- Chain preservation for the sequential-batch invariant: the fold keeps
`seqPairOK` between consecutive requests, and the (already stepped)
predecessor handed to the fold stays linked to the new head. -/
lemma processRequestsAux_chain (c : AnimConfig) (now : ℚ) (u : ℕ) :
    ∀ (l : List Request) (es rs : List Bool) (prev : Option Request),
      List.Chain' seqPairOK l →
      (∀ a, prev = some a → ∀ b, l.head? = some b → seqPairOK a b) →
      List.Chain' seqPairOK (processRequestsAux c now u prev l es rs).requests ∧
        (∀ a, prev = some a →
          ∀ b', (processRequestsAux c now u prev l es rs).requests.head? = some b' →
            seqPairOK a b') := by
  intro l
  induction l with
  | nil =>
      intro es rs prev _ _
      exact ⟨List.chain'_nil, by intro a _ b' hb'; exact absurd hb' (by simp [processRequestsAux])⟩
  | cons b tl ih =>
      intro es rs prev hchain hrel
      have hchain_tl : List.Chain' seqPairOK tl := hchain.tail
      -- the stepped head
      set b' := (stepRequest c now u prev b es rs).1 with hb'
      have hpair_b' : ∀ a, prev = some a → seqPairOK a b' := by
        intro a ha
        constructor
        · intro hbp
          rcases stepRequest_pending_source c now u prev b es rs hbp with ⟨hbpend, hsa⟩
          rw [hb', hsa]
          exact ((hrel a ha b rfl).1) hbpend
        · intro hbnp
          by_cases hbpend : b.state = .pending
          · have hinf : b.startAt = .inf := (hrel a ha b rfl).1 hbpend
            have := stepRequest_needs_prev c now u prev b es rs hbpend hinf hbnp
            rw [ha] at this
            simpa [prevDone] using this
          · have := (hrel a ha b rfl).2 hbpend
            exact this
      -- link from b' to the (unstepped) head of tl
      have hrel' : ∀ a, some b' = some a → ∀ b2, tl.head? = some b2 → seqPairOK a b2 := by
        intro a ha b2 hb2
        cases ha
        constructor
        · intro h2p
          exact (hchain.rel_head? (by rw [hb2]; exact rfl)).1 h2p
        · intro h2np
          have hbdone : b.state = .done := (hchain.rel_head? (by rw [hb2]; exact rfl)).2 h2np
          exact stepRequest_done_state c now u prev b es rs hbdone
      rcases ih ((stepRequest c now u prev b es rs).2.1)
          ((stepRequest c now u prev b es rs).2.2.1) (some b') hchain_tl hrel' with ⟨ihchain, ihhead⟩
      constructor
      · show List.Chain' seqPairOK (b' :: _)
        refine List.Chain'.cons' ihchain ?_
        intro y hy
        exact ihhead b' rfl y hy
      · intro a ha b'' hb''
        simp only [processRequestsAux, List.head?_cons, Option.some.injEq] at hb''
        rw [← hb'']
        exact hpair_b' a ha

/-! ## Helper lemmas: the `processInvalidations` fold -/

lemma stepInvalidation_edges_cases (c : AnimConfig) (now : ℚ) (inv : Invalidation)
    (es rs : List Bool) :
    (stepInvalidation c now inv es rs).2.1 = es ∨
      (inv.type = .edge ∧ inv.state = .pulsing ∧
        1 ≤ progressAt now inv.startTime inv.duration ∧
        (stepInvalidation c now inv es rs).2.1 = jsSet es inv.targetIndex false) := by
  rcases inv with ⟨ty, ti, st0, dur, st⟩
  cases ty <;> cases st <;>
    simp only [stepInvalidation] <;>
    (try cases htg : jsGet es ti) <;>
    (try cases htg2 : jsGet rs ti) <;>
    (try split_ifs with ht) <;>
    simp_all

lemma stepInvalidation_regionals_cases (c : AnimConfig) (now : ℚ) (inv : Invalidation)
    (es rs : List Bool) :
    (stepInvalidation c now inv es rs).2.2.1 = rs ∨
      (inv.type = .regional ∧ inv.state = .pulsing ∧
        1 ≤ progressAt now inv.startTime inv.duration ∧
        (stepInvalidation c now inv es rs).2.2.1 = jsSet rs inv.targetIndex false) := by
  rcases inv with ⟨ty, ti, st0, dur, st⟩
  cases ty <;> cases st <;>
    simp only [stepInvalidation] <;>
    (try cases htg : jsGet es ti) <;>
    (try cases htg2 : jsGet rs ti) <;>
    (try split_ifs with ht) <;>
    simp_all

lemma stepInvalidation_edges_mono_false (c : AnimConfig) (now : ℚ) (inv : Invalidation)
    (es rs : List Bool) (i : ℤ) (h : jsGet es i = some false) :
    jsGet (stepInvalidation c now inv es rs).2.1 i = some false := by
  rcases stepInvalidation_edges_cases c now inv es rs with he | ⟨_, _, _, he⟩
  · rw [he]; exact h
  · rw [he]; exact jsGet_jsSet_false_of_false _ _ _ h

lemma stepInvalidation_regionals_mono_false (c : AnimConfig) (now : ℚ) (inv : Invalidation)
    (es rs : List Bool) (i : ℤ) (h : jsGet rs i = some false) :
    jsGet (stepInvalidation c now inv es rs).2.2.1 i = some false := by
  rcases stepInvalidation_regionals_cases c now inv es rs with he | ⟨_, _, _, he⟩
  · rw [he]; exact h
  · rw [he]; exact jsGet_jsSet_false_of_false _ _ _ h

/-- `processInvalidations` never warms a flag (edge side). -/
lemma processInvalidationsAux_edges_mono_false (c : AnimConfig) (now : ℚ) :
    ∀ (l : List Invalidation) (es rs : List Bool) (i : ℤ),
      jsGet es i = some false →
      jsGet (processInvalidationsAux c now l es rs).edges i = some false := by
  intro l
  induction l with
  | nil => intro es rs i h; exact h
  | cons hd tl ih =>
      intro es rs i h
      simp only [processInvalidationsAux]
      exact ih _ _ i (stepInvalidation_edges_mono_false c now hd es rs i h)

/-- `processInvalidations` never warms a flag (regional side). -/
lemma processInvalidationsAux_regionals_mono_false (c : AnimConfig) (now : ℚ) :
    ∀ (l : List Invalidation) (es rs : List Bool) (i : ℤ),
      jsGet rs i = some false →
      jsGet (processInvalidationsAux c now l es rs).regionals i = some false := by
  intro l
  induction l with
  | nil => intro es rs i h; exact h
  | cons hd tl ih =>
      intro es rs i h
      simp only [processInvalidationsAux]
      exact ih _ _ i (stepInvalidation_regionals_mono_false c now hd es rs i h)

/-- An edge flag that ends `false` was already `false` or was cleared by an
invalidation completing its pulse this frame. -/
lemma processInvalidationsAux_edges_flip (c : AnimConfig) (now : ℚ) :
    ∀ (l : List Invalidation) (es rs : List Bool) (i : ℤ),
      jsGet (processInvalidationsAux c now l es rs).edges i = some false →
      jsGet es i = some false ∨
        ∃ inv ∈ l, inv.type = .edge ∧ inv.targetIndex = i ∧ inv.state = .pulsing ∧
          1 ≤ progressAt now inv.startTime inv.duration := by
  intro l
  induction l with
  | nil => intro es rs i h; exact Or.inl h
  | cons hd tl ih =>
      intro es rs i h
      simp only [processInvalidationsAux] at h
      rcases ih _ _ i h with h1 | ⟨inv, hinv, hprop⟩
      · rcases stepInvalidation_edges_cases c now hd es rs with he | ⟨hty, hst, ht, he⟩
        · rw [he] at h1
          exact Or.inl h1
        · rw [he, jsGet_jsSet] at h1
          by_cases hik : i = hd.targetIndex
          · rw [if_pos hik] at h1
            cases hg : jsGet es i with
            | none => rw [hg] at h1; exact Option.noConfusion h1
            | some b =>
                cases b with
                | false => exact Or.inl rfl
                | true => exact Or.inr ⟨hd, List.mem_cons_self hd tl, hty, hik.symm, hst, ht⟩
          · rw [if_neg hik] at h1
            exact Or.inl h1
      · exact Or.inr ⟨inv, List.mem_cons_of_mem hd hinv, hprop⟩

/-- Regional analogue of `processInvalidationsAux_edges_flip`. -/
lemma processInvalidationsAux_regionals_flip (c : AnimConfig) (now : ℚ) :
    ∀ (l : List Invalidation) (es rs : List Bool) (i : ℤ),
      jsGet (processInvalidationsAux c now l es rs).regionals i = some false →
      jsGet rs i = some false ∨
        ∃ inv ∈ l, inv.type = .regional ∧ inv.targetIndex = i ∧ inv.state = .pulsing ∧
          1 ≤ progressAt now inv.startTime inv.duration := by
  intro l
  induction l with
  | nil => intro es rs i h; exact Or.inl h
  | cons hd tl ih =>
      intro es rs i h
      simp only [processInvalidationsAux] at h
      rcases ih _ _ i h with h1 | ⟨inv, hinv, hprop⟩
      · rcases stepInvalidation_regionals_cases c now hd es rs with he | ⟨hty, hst, ht, he⟩
        · rw [he] at h1
          exact Or.inl h1
        · rw [he, jsGet_jsSet] at h1
          by_cases hik : i = hd.targetIndex
          · rw [if_pos hik] at h1
            cases hg : jsGet rs i with
            | none => rw [hg] at h1; exact Option.noConfusion h1
            | some b =>
                cases b with
                | false => exact Or.inl rfl
                | true => exact Or.inr ⟨hd, List.mem_cons_self hd tl, hty, hik.symm, hst, ht⟩
          · rw [if_neg hik] at h1
            exact Or.inl h1
      · exact Or.inr ⟨inv, List.mem_cons_of_mem hd hinv, hprop⟩

/-! ## Helper lemmas: control operations and field preservation -/

lemma setupRun_fields (c : AnimConfig) (now : ℚ) (s : AnimState) :
    (setupRun c now s).edgesState = s.edgesState ∧
    (setupRun c now s).regionalState = s.regionalState ∧
    (setupRun c now s).destroyed = s.destroyed ∧
    (setupRun c now s).isPlaying = s.isPlaying ∧
    (setupRun c now s).rafId = s.rafId ∧
    (setupRun c now s).invalidations = s.invalidations ∧
    (setupRun c now s).users = s.users :=
  ⟨rfl, rfl, rfl, rfl, rfl, rfl, rfl⟩

lemma startLoopGo_fields (s : AnimState) :
    (startLoopGo s).edgesState = s.edgesState ∧
    (startLoopGo s).regionalState = s.regionalState ∧
    (startLoopGo s).destroyed = s.destroyed ∧
    (startLoopGo s).requests = s.requests ∧
    (startLoopGo s).invalidations = s.invalidations ∧
    (startLoopGo s).replayTimer = s.replayTimer ∧
    (startLoopGo s).isFinished = s.isFinished := by
  unfold startLoopGo
  split_ifs <;> exact ⟨rfl, rfl, rfl, rfl, rfl, rfl, rfl⟩

lemma pauseLoop_fields (s : AnimState) :
    (pauseLoop s).edgesState = s.edgesState ∧
    (pauseLoop s).regionalState = s.regionalState ∧
    (pauseLoop s).destroyed = s.destroyed ∧
    (pauseLoop s).requests = s.requests ∧
    (pauseLoop s).invalidations = s.invalidations ∧
    (pauseLoop s).replayTimer = s.replayTimer ∧
    (pauseLoop s).runIndex = s.runIndex ∧
    (pauseLoop s).isFinished = s.isFinished := by
  unfold pauseLoop
  split_ifs <;> exact ⟨rfl, rfl, rfl, rfl, rfl, rfl, rfl, rfl⟩

lemma restart_flags (c : AnimConfig) (now : ℚ) (s : AnimState) :
    (restart c now s).edgesState = s.edgesState ∧
    (restart c now s).regionalState = s.regionalState ∧
    (restart c now s).destroyed = s.destroyed := by
  unfold restart
  refine ⟨?_, ?_, ?_⟩ <;>
    simp only [(startLoopGo_fields _).1, (startLoopGo_fields _).2.1,
      (startLoopGo_fields _).2.2.1] <;>
    rfl

lemma startLoop_flags (c : AnimConfig) (now : ℚ) (s : AnimState) :
    (startLoop c now s).edgesState = s.edgesState ∧
    (startLoop c now s).regionalState = s.regionalState ∧
    (startLoop c now s).destroyed = s.destroyed := by
  unfold startLoop
  split_ifs
  · exact ⟨rfl, rfl, rfl⟩
  · exact restart_flags c now s
  · exact ⟨rfl, rfl, rfl⟩

/-- `startLoop` on a state whose `isFinished` is clear does not touch the
request list (the `restart` branch is unreachable). -/
lemma startLoop_unfinished_requests (c : AnimConfig) (now : ℚ) (s : AnimState)
    (h : s.isFinished = false) :
    (startLoop c now s).requests = s.requests := by
  unfold startLoop
  split_ifs with h1 h2
  · rfl
  · rw [h] at h2
    exact absurd h2 (by simp)
  · rfl

/-- `startLoop` on an unfinished state only touches `isPlaying`/`rafId`. -/
lemma startLoop_unfinished_fields (c : AnimConfig) (now : ℚ) (s : AnimState)
    (h : s.isFinished = false) :
    (startLoop c now s).invalidations = s.invalidations ∧
    (startLoop c now s).edgesState = s.edgesState ∧
    (startLoop c now s).regionalState = s.regionalState ∧
    (startLoop c now s).requests = s.requests := by
  unfold startLoop
  split_ifs with h1 h2
  · exact ⟨rfl, rfl, rfl, rfl⟩
  · rw [h] at h2
    exact absurd h2 (by simp)
  · exact ⟨rfl, rfl, rfl, rfl⟩

lemma destroy_flags (s : AnimState) :
    (destroy s).edgesState = s.edgesState ∧
    (destroy s).regionalState = s.regionalState ∧
    (destroy s).destroyed = true := by
  unfold destroy
  refine ⟨?_, ?_, ?_⟩ <;>
    simp only [(pauseLoop_fields _).1, (pauseLoop_fields _).2.1,
      (pauseLoop_fields _).2.2.1]

lemma invalidateAllCaches_flags (c : AnimConfig) (now : ℚ) (s : AnimState) :
    (invalidateAllCaches c now s).edgesState = s.edgesState ∧
    (invalidateAllCaches c now s).regionalState = s.regionalState ∧
    (invalidateAllCaches c now s).destroyed = s.destroyed ∧
    (invalidateAllCaches c now s).requests = s.requests := by
  simp only [invalidateAllCaches]
  split_ifs with h
  · refine ⟨?_, ?_, ?_, ?_⟩ <;>
      first
        | exact (startLoop_flags c now _).1
        | exact (startLoop_flags c now _).2.1
        | exact (startLoop_flags c now _).2.2
        | exact startLoop_unfinished_requests c now _ rfl
  · exact ⟨rfl, rfl, rfl, rfl⟩

lemma clickUserStep_fields (c : AnimConfig) (now x y : ℚ) (j : ℕ) (u : UserNode)
    (s : AnimState) :
    (clickUserStep c now x y j u s).edgesState = s.edgesState ∧
    (clickUserStep c now x y j u s).regionalState = s.regionalState ∧
    (clickUserStep c now x y j u s).destroyed = s.destroyed ∧
    (clickUserStep c now x y j u s).invalidations = s.invalidations := by
  simp only [clickUserStep]
  split_ifs with h1 h2 h3
  · exact ⟨rfl, rfl, rfl, rfl⟩
  · refine ⟨?_, ?_, ?_, ?_⟩ <;>
      first
        | exact (startLoop_flags c now _).1
        | exact (startLoop_flags c now _).2.1
        | exact (startLoop_flags c now _).2.2
        | (show (startLoop c now _).invalidations = _
           unfold startLoop restart
           split_ifs <;>
             simp only [(startLoopGo_fields _).2.2.2.2.1] <;> rfl)
  · exact ⟨rfl, rfl, rfl, rfl⟩
  · exact ⟨rfl, rfl, rfl, rfl⟩

/-- A click only appends to the request list: every output request is an
input request or a fresh pending request with a finite start time `now`. -/
lemma clickUserStep_requests (c : AnimConfig) (now x y : ℚ) (j : ℕ) (u : UserNode)
    (s : AnimState) (r : Request) (hr : r ∈ (clickUserStep c now x y j u s).requests) :
    r ∈ s.requests ∨ (r.startAt = .fin now ∧ r.state = .pending) := by
  revert hr
  simp only [clickUserStep]
  split_ifs with h1 h2 h3
  · exact fun hr => Or.inl hr
  · intro hr
    rw [startLoop_unfinished_requests c now _ rfl] at hr
    simp only [List.mem_append, List.mem_singleton] at hr
    rcases hr with hr | hr
    · exact Or.inl hr
    · rw [hr]
      exact Or.inr ⟨rfl, rfl⟩
  · intro hr
    simp only [List.mem_append, List.mem_singleton] at hr
    rcases hr with hr | hr
    · exact Or.inl hr
    · rw [hr]
      exact Or.inr ⟨rfl, rfl⟩
  · exact fun hr => Or.inl hr

/-! ## Helper lemmas: clicks, setup, frames -/

lemma clickUserStep_inflight (c : AnimConfig) (now x y : ℚ) (j : ℕ) (u : UserNode)
    (s : AnimState) (i : ℤ) (h : s.requests.any (inFlightFor i) = true) :
    (clickUserStep c now x y j u s).requests.filter (byUser i) =
        s.requests.filter (byUser i) ∧
      (clickUserStep c now x y j u s).requests.any (inFlightFor i) = true := by
  have hij : s.requests.any
      (fun r => decide (r.userIndex = (j : ℤ) ∧ r.state ≠ .done)) = true → True :=
    fun _ => trivial
  simp only [clickUserStep]
  split_ifs with h1 h2 h3
  · exact ⟨rfl, h⟩
  · by_cases hji : (j : ℤ) = i
    · exfalso
      apply h2
      rw [hji]
      exact h
    · rw [startLoop_unfinished_requests c now _ rfl]
      constructor
      · rw [List.filter_append]
        have : List.filter (byUser i) [
            ({ userIndex := (j : ℤ), edgeIndex := u.assignedEdgeIndex,
               regionalIndex := (jsGet s.edgesToRegional u.assignedEdgeIndex).getD (-1),
               startAt := .fin now, state := .pending, t0 := 0 } : Request)] = [] := by
          simp [byUser, hji]
        rw [this, List.append_nil]
      · rw [List.any_append, h]
        rfl
  · by_cases hji : (j : ℤ) = i
    · exfalso
      apply h2
      rw [hji]
      exact h
    · constructor
      · rw [List.filter_append]
        have : List.filter (byUser i) [
            ({ userIndex := (j : ℤ), edgeIndex := u.assignedEdgeIndex,
               regionalIndex := (jsGet s.edgesToRegional u.assignedEdgeIndex).getD (-1),
               startAt := .fin now, state := .pending, t0 := 0 } : Request)] = [] := by
          simp [byUser, hji]
        rw [this, List.append_nil]
      · rw [List.any_append, h]
        rfl
  · exact ⟨rfl, h⟩

lemma clickUserStep_count (c : AnimConfig) (now x y : ℚ) (j : ℕ) (u : UserNode)
    (s : AnimState) (h : ∀ i : ℤ, s.requests.countP (inFlightFor i) ≤ 1) (i : ℤ) :
    (clickUserStep c now x y j u s).requests.countP (inFlightFor i) ≤ 1 := by
  simp only [clickUserStep]
  split_ifs with h1 h2 h3
  · exact h i
  · rw [startLoop_unfinished_requests c now _ rfl, List.countP_append]
    by_cases hji : (j : ℤ) = i
    · have hzero : s.requests.countP (inFlightFor i) = 0 := by
        rw [List.countP_eq_zero]
        intro r hr hfl
        apply h2
        rw [List.any_eq_true]
        refine ⟨r, hr, ?_⟩
        rw [← hji] at hfl
        exact hfl
      rw [hzero]
      simp only [List.countP_cons, List.countP_nil, Nat.zero_add]
      split_ifs <;> omega
    · have : List.countP (inFlightFor i) [
          ({ userIndex := (j : ℤ), edgeIndex := u.assignedEdgeIndex,
             regionalIndex := (jsGet s.edgesToRegional u.assignedEdgeIndex).getD (-1),
             startAt := .fin now, state := .pending, t0 := 0 } : Request)] = 0 := by
        simp [inFlightFor, hji]
      rw [this]
      simpa using h i
  · rw [List.countP_append]
    by_cases hji : (j : ℤ) = i
    · have hzero : s.requests.countP (inFlightFor i) = 0 := by
        rw [List.countP_eq_zero]
        intro r hr hfl
        apply h2
        rw [List.any_eq_true]
        refine ⟨r, hr, ?_⟩
        rw [← hji] at hfl
        exact hfl
      rw [hzero]
      simp only [List.countP_cons, List.countP_nil, Nat.zero_add]
      split_ifs <;> omega
    · have : List.countP (inFlightFor i) [
          ({ userIndex := (j : ℤ), edgeIndex := u.assignedEdgeIndex,
             regionalIndex := (jsGet s.edgesToRegional u.assignedEdgeIndex).getD (-1),
             startAt := .fin now, state := .pending, t0 := 0 } : Request)] = 0 := by
        simp [inFlightFor, hji]
      rw [this]
      simpa using h i
  · exact h i

lemma clickFold_inflight (c : AnimConfig) (now x y : ℚ) (i : ℤ) :
    ∀ (ps : List (ℕ × UserNode)) (acc : AnimState),
      acc.requests.any (inFlightFor i) = true →
      ((ps.foldl (fun a p => clickUserStep c now x y p.1 p.2 a) acc).requests.filter
          (byUser i) = acc.requests.filter (byUser i)) ∧
        (ps.foldl (fun a p => clickUserStep c now x y p.1 p.2 a) acc).requests.any
          (inFlightFor i) = true := by
  intro ps
  induction ps with
  | nil => intro acc h; exact ⟨rfl, h⟩
  | cons p tl ih =>
      intro acc h
      simp only [List.foldl_cons]
      rcases clickUserStep_inflight c now x y p.1 p.2 acc i h with ⟨hf, ha⟩
      rcases ih _ ha with ⟨hf2, ha2⟩
      exact ⟨hf2.trans hf, ha2⟩

lemma clickFold_count (c : AnimConfig) (now x y : ℚ) :
    ∀ (ps : List (ℕ × UserNode)) (acc : AnimState),
      (∀ i : ℤ, acc.requests.countP (inFlightFor i) ≤ 1) →
      ∀ i : ℤ, ((ps.foldl (fun a p => clickUserStep c now x y p.1 p.2 a) acc).requests.countP
        (inFlightFor i)) ≤ 1 := by
  intro ps
  induction ps with
  | nil => intro acc h i; exact h i
  | cons p tl ih =>
      intro acc h i
      simp only [List.foldl_cons]
      exact ih _ (clickUserStep_count c now x y p.1 p.2 acc h) i

lemma clickFold_requests (c : AnimConfig) (now x y : ℚ) :
    ∀ (ps : List (ℕ × UserNode)) (acc : AnimState) (r : Request),
      r ∈ (ps.foldl (fun a p => clickUserStep c now x y p.1 p.2 a) acc).requests →
      r ∈ acc.requests ∨ (r.startAt = .fin now ∧ r.state = .pending) := by
  intro ps
  induction ps with
  | nil => intro acc r hr; exact Or.inl hr
  | cons p tl ih =>
      intro acc r hr
      simp only [List.foldl_cons] at hr
      rcases ih _ r hr with hmem | hnew
      · exact (clickUserStep_requests c now x y p.1 p.2 acc r hmem)
      · exact Or.inr hnew

lemma clickFold_flags (c : AnimConfig) (now x y : ℚ) :
    ∀ (ps : List (ℕ × UserNode)) (acc : AnimState),
      ((ps.foldl (fun a p => clickUserStep c now x y p.1 p.2 a) acc).edgesState
          = acc.edgesState) ∧
        ((ps.foldl (fun a p => clickUserStep c now x y p.1 p.2 a) acc).regionalState
          = acc.regionalState) ∧
        ((ps.foldl (fun a p => clickUserStep c now x y p.1 p.2 a) acc).destroyed
          = acc.destroyed) := by
  intro ps
  induction ps with
  | nil => intro acc; exact ⟨rfl, rfl, rfl⟩
  | cons p tl ih =>
      intro acc
      simp only [List.foldl_cons]
      rcases ih (clickUserStep c now x y p.1 p.2 acc) with ⟨h1, h2, h3⟩
      rcases clickUserStep_fields c now x y p.1 p.2 acc with ⟨g1, g2, g3, -⟩
      exact ⟨h1.trans g1, h2.trans g2, h3.trans g3⟩

lemma onCanvasClick_flags (c : AnimConfig) (now x y : ℚ) (s : AnimState) :
    (onCanvasClick c now x y s).edgesState = s.edgesState ∧
    (onCanvasClick c now x y s).regionalState = s.regionalState ∧
    (onCanvasClick c now x y s).destroyed = s.destroyed := by
  unfold onCanvasClick
  split_ifs with h
  · exact ⟨rfl, rfl, rfl⟩
  · exact clickFold_flags c now x y s.users.enum s

/-- The per-request builder of `setupRun` always yields a pending request. -/
lemma setupRequest_state (c : AnimConfig) (now : ℚ) (s : AnimState) (i : ℕ) :
    (setupRequest c now s i).state = .pending := rfl

/-- In sequential mode every request after the first starts at `Infinity`. -/
lemma setupRequest_startAt (c : AnimConfig) (now : ℚ) (s : AnimState) (i : ℕ)
    (hseq : c.sequential = true) (hi : i ≠ 0) :
    (setupRequest c now s i).startAt = .inf := by
  simp [setupRequest, hseq, hi]

/-- `Chain'` from a consecutive-`get?` condition. -/
lemma chain'_of_get? {α : Type _} {P : α → α → Prop} :
    ∀ (l : List α),
      (∀ (i : ℕ) a b, l.get? i = some a → l.get? (i + 1) = some b → P a b) →
      List.Chain' P l
  | [], _ => List.chain'_nil
  | [a], _ => List.chain'_singleton a
  | a :: b :: tl, h => by
      rw [List.chain'_cons]
      exact ⟨h 0 a b rfl rfl,
        chain'_of_get? (b :: tl) (fun i x y hx hy => h (i + 1) x y hx hy)⟩

/-- The batch seeded by `setupRun` satisfies the sequential pair invariant. -/
lemma setupRun_chain (c : AnimConfig) (now : ℚ) (s : AnimState)
    (hseq : c.sequential = true) :
    List.Chain' seqPairOK (setupRun c now s).requests := by
  apply chain'_of_get?
  intro i a b _ hb
  have hmap : (setupRun c now s).requests =
      (List.range c.usersCount).map (setupRequest c now s) := rfl
  rw [hmap, List.get?_map] at hb
  cases hr : (List.range c.usersCount).get? (i + 1) with
  | none =>
      rw [hr] at hb
      exact Option.noConfusion hb
  | some k =>
      rw [hr] at hb
      have hk : k = i + 1 := by
        rcases List.get?_eq_some.mp hr with ⟨hlt, hget⟩
        rw [List.get_range] at hget
        exact hget.symm
      have hb' : setupRequest c now s k = b := Option.some.inj hb
      constructor
      · intro _
        rw [← hb']
        exact setupRequest_startAt c now s k hseq (by omega)
      · intro hne
        exfalso
        apply hne
        rw [← hb']
        exact setupRequest_state c now s k

/-- The processing core does not touch the control fields, and preserves the
request count. -/
lemma frameCore_fields (c : AnimConfig) (now : ℚ) (s : AnimState) :
    (frameCore c now s).1.replayTimer = s.replayTimer ∧
    (frameCore c now s).1.isFinished = s.isFinished ∧
    (frameCore c now s).1.runIndex = s.runIndex ∧
    (frameCore c now s).1.destroyed = s.destroyed ∧
    (frameCore c now s).1.isPlaying = s.isPlaying ∧
    (frameCore c now s).1.rafId = s.rafId ∧
    (frameCore c now s).1.requests.length = s.requests.length := by
  refine ⟨rfl, rfl, rfl, rfl, rfl, rfl, ?_⟩
  show (processRequestsAux c now s.users.length none s.requests s.edgesState
    s.regionalState).requests.length = s.requests.length
  exact processRequestsAux_length c now s.users.length s.requests none
    s.edgesState s.regionalState

lemma finishStep_destroyed (s2 : AnimState) :
    (finishStep s2).destroyed = s2.destroyed := by
  simp only [finishStep]
  split_ifs <;>
    (try rw [(pauseLoop_fields _).2.2.1]) <;>
    rfl

lemma renderFrame_destroyed (c : AnimConfig) (now : ℚ) (s : AnimState) :
    (renderFrame c now s).destroyed = s.destroyed := by
  simp only [renderFrame]
  split_ifs <;>
    (try rw [finishStep_destroyed]) <;>
    rfl

lemma clearCache_destroyed (c : AnimConfig) (now : ℚ) (s : AnimState) :
    (clearCache c now s).destroyed = s.destroyed := by
  unfold clearCache
  rw [renderFrame_destroyed]

/-- `sizeCanvas`'s rebuild of the flag lists preserves every existing flag
(and initializes missing entries to `false`). -/
lemma jsGet_sizeCanvasFlags (old : List Bool) (count : ℕ) (i : ℤ)
    (h0 : 0 ≤ i) (h : i < (count : ℤ)) :
    jsGet (sizeCanvasFlags old count) i = some ((jsGet old i).getD false) := by
  have h1 : jsGet (sizeCanvasFlags old count) i =
      (sizeCanvasFlags old count).get? i.toNat := by
    unfold jsGet
    rw [if_pos h0]
  rw [h1]
  unfold sizeCanvasFlags
  rw [List.get?_map, List.get?_range (show i.toNat < count by omega)]
  show some ((jsGet old ((i.toNat : ℕ) : ℤ)).getD false) = some ((jsGet old i).getD false)
  rw [Int.toNat_of_nonneg h0]

/-- The `forEach`-push of `invalidateAllCaches` enqueues nothing when no flag
is warm. -/
lemma enum_filterMap_nil {β : Type _} (l : List Bool)
    (f : ℕ × Bool → Option β) (hf : ∀ p : ℕ × Bool, p.2 = false → f p = none)
    (h : ∀ b ∈ l, b = false) : l.enum.filterMap f = [] := by
  suffices hgen : ∀ (n : ℕ) (l : List Bool), (∀ b ∈ l, b = false) →
      (l.enumFrom n).filterMap f = [] from hgen 0 l h
  intro n l'
  induction l' generalizing n with
  | nil => intro _; rfl
  | cons b tl ih =>
      intro hall
      rw [List.enumFrom_cons, List.filterMap_cons,
        hf (n, b) (hall b (List.mem_cons_self b tl))]
      exact ih (n + 1) (fun x hx => hall x (List.mem_cons_of_mem b hx))

/-- All stage durations of the shipped configuration are positive. -/
lemma getDurationForState_pos (st : ReqState) :
    0 < getDurationForState ANIM_CONFIG st := by
  cases st <;> norm_num [getDurationForState, ANIM_CONFIG]

/-! ## Claims -/

/-- Claim C2: for every request and every frame step of `processRequests`,
the state stays the same or moves to the successor prescribed by the chain
`pending → traveling_to_edge → {traveling_to_regional | edge_hit_return} →
{fetching_origin | regional_hit_return} → storing_regional →
returning_to_edge_from_regional → storing_edge → returning_to_user → done`,
where `edge_hit_return` goes directly to `done` and `regional_hit_return`
continues at the edge-tier store (`chainSucc`). -/
theorem claim_C2 (c : AnimConfig) (now : ℚ) (s : AnimState) (i : ℕ)
    (r r' : Request) (h : s.requests.get? i = some r)
    (h' : (processRequests c now s).requests.get? i = some r') :
    r'.state = r.state ∨ chainSucc r.state r'.state = true :=
  processRequestsAux_get c now s.users.length s.requests none s.edgesState
    s.regionalState i r r' h h'

/-- Witness for C2: the concrete request `wReq` (storing at the edge) moves
to `returning_to_user` at clock 1000, a `chainSucc` move. -/
theorem claim_C2_witness :
    wReq2.state = wReq.state ∨ chainSucc wReq.state wReq2.state = true :=
  claim_C2 ANIM_CONFIG 1000 sStoring 0 wReq wReq2 (by decide!) (by decide!)

/-- Claim C3: in sequential mode, (1) `setupRun` seeds a batch satisfying the
pair invariant `seqPairOK` (every non-first request is pending with the
`Infinity` start sentinel), (2) `processRequests` preserves that invariant on
the batch prefix of the request list, and (3) under the invariant a request
that has left `pending` has a `done` immediate predecessor — so request
`i+1` never leaves `pending` before request `i` is done. -/
theorem claim_C3 :
    (∀ (c : AnimConfig) (now : ℚ) (s : AnimState), c.sequential = true →
      List.Chain' seqPairOK (setupRun c now s).requests) ∧
    (∀ (c : AnimConfig) (now : ℚ) (s : AnimState) (n : ℕ),
      List.Chain' seqPairOK (s.requests.take n) →
      List.Chain' seqPairOK ((processRequests c now s).requests.take n)) ∧
    (∀ (l : List Request) (i : ℕ) (a b : Request),
      List.Chain' seqPairOK l → l.get? i = some a → l.get? (i + 1) = some b →
      b.state ≠ .pending → a.state = .done) := by
  refine ⟨fun c now s hseq => setupRun_chain c now s hseq, ?_, ?_⟩
  · intro c now s n hchain
    have hnone : ∀ a : Request, (none : Option Request) = some a →
        ∀ b, (s.requests.take n).head? = some b → seqPairOK a b := by
      intro a ha
      exact absurd ha (by simp)
    by_cases hn : n ≤ s.requests.length
    · have hlen : (s.requests.take n).length = n := by
        rw [List.length_take]
        omega
      have hpref := processRequestsAux_take c now s.users.length
        (s.requests.take n) (s.requests.drop n) none s.edgesState s.regionalState
      rw [hlen] at hpref
      have hfull : (processRequests c now s).requests.take n =
          (processRequestsAux c now s.users.length none (s.requests.take n)
            s.edgesState s.regionalState).requests := by
        show (processRequestsAux c now s.users.length none s.requests
          s.edgesState s.regionalState).requests.take n = _
        rw [List.take_append_drop] at hpref
        exact hpref
      rw [hfull]
      exact (processRequestsAux_chain c now s.users.length (s.requests.take n)
        s.edgesState s.regionalState none hchain hnone).1
    · have htk : s.requests.take n = s.requests := by
        apply List.take_of_length_le
        omega
      have hout : (processRequests c now s).requests.take n =
          (processRequests c now s).requests := by
        apply List.take_of_length_le
        show (processRequestsAux c now s.users.length none s.requests
          s.edgesState s.regionalState).requests.length ≤ n
        rw [processRequestsAux_length]
        omega
      rw [hout]
      rw [htk] at hchain
      have hnone' : ∀ a : Request, (none : Option Request) = some a →
          ∀ b, s.requests.head? = some b → seqPairOK a b := by
        intro a ha
        exact absurd ha (by simp)
      exact (processRequestsAux_chain c now s.users.length s.requests
        s.edgesState s.regionalState none hchain hnone').1
  · intro l i a b hchain ha hb hbne
    rcases List.get?_eq_some.mp ha with ⟨hia, hga⟩
    rcases List.get?_eq_some.mp hb with ⟨hib, hgb⟩
    have hpair := List.chain'_iff_get.mp hchain i (by omega)
    have hp2 : seqPairOK a b := by
      have e1 : l.get ⟨i, by omega⟩ = a := hga
      have e2 : l.get ⟨i + 1, by omega⟩ = b := hgb
      rw [← e1, ← e2]
      exact hpair
    exact hp2.2 hbne

/-- Witness for C3: the shipped sequential batch on a 600×420 canvas
satisfies the invariant, and a concrete projection instance. -/
theorem claim_C3_witness :
    List.Chain' seqPairOK (setupRun ANIM_CONFIG 0 (initState ANIM_CONFIG 600 420)).requests ∧
    List.Chain' seqPairOK ((processRequests ANIM_CONFIG 0
      (setupRun ANIM_CONFIG 0 (initState ANIM_CONFIG 600 420))).requests.take 4) := by
  constructor
  · exact claim_C3.1 ANIM_CONFIG 0 (initState ANIM_CONFIG 600 420) rfl
  · apply claim_C3.2.1 ANIM_CONFIG 0 (setupRun ANIM_CONFIG 0 (initState ANIM_CONFIG 600 420)) 4
    exact List.Chain'.take (claim_C3.1 ANIM_CONFIG 0 (initState ANIM_CONFIG 600 420) rfl) 4

/-- Claim C7: the normalized progress `t = min(1, (now - t0)/duration)` used
by `processRequests` and `processInvalidations` lies in `[0, 1]` whenever the
state-entry timestamp is in the past (whatever the elapsed time), and every
stage duration of the shipped configuration is positive. -/
theorem claim_C7 :
    (∀ now t0 dur : ℚ, 0 < dur → progressAt now t0 dur ≤ 1) ∧
    (∀ now t0 dur : ℚ, t0 ≤ now → 0 < dur → 0 ≤ progressAt now t0 dur) ∧
    (∀ st : ReqState, 0 < getDurationForState ANIM_CONFIG st) := by
  refine ⟨?_, ?_, getDurationForState_pos⟩
  · intro now t0 dur _
    exact min_le_left _ _
  · intro now t0 dur hle hdur
    unfold progressAt
    exact le_min zero_le_one (div_nonneg (by linarith) (le_of_lt hdur))

/-- Witness for C7: a frame 100 s after entering a 900 ms store still has
`t ∈ [0, 1]`. -/
theorem claim_C7_witness :
    0 ≤ progressAt 100000 0 (getDurationForState ANIM_CONFIG .storing_edge) ∧
      progressAt 100000 0 (getDurationForState ANIM_CONFIG .storing_edge) ≤ 1 :=
  ⟨claim_C7.2.1 100000 0 _ (by norm_num) (claim_C7.2.2 .storing_edge),
    claim_C7.1 100000 0 _ (claim_C7.2.2 .storing_edge)⟩

/-- Claim C9: a click-created request gets the finite start time
`performance.now()` (never the `Infinity` sentinel), and `processRequests`
moves any pending request with a reached finite start time out of `pending`
regardless of its predecessor's state — the predecessor-waiting rule only
applies to the `Infinity` sentinel. -/
theorem claim_C9 :
    (∀ (c : AnimConfig) (now x y : ℚ) (s : AnimState) (r : Request),
      r ∈ (onCanvasClick c now x y s).requests →
      r ∈ s.requests ∨ (r.startAt = .fin now ∧ r.state = .pending)) ∧
    (∀ (c : AnimConfig) (now : ℚ) (u : ℕ) (prev : Option Request)
      (req : Request) (es rs : List Bool) (T : ℚ),
      req.state = .pending → req.startAt = .fin T → T ≤ now →
      jsIdxOk u req.userIndex = true → jsGet es req.edgeIndex ≠ none →
      jsGet rs req.regionalIndex ≠ none →
      (stepRequest c now u prev req es rs).1.state = .traveling_to_edge) := by
  constructor
  · intro c now x y s r hr
    unfold onCanvasClick at hr
    split_ifs at hr with hd
    · exact Or.inl hr
    · exact clickFold_requests c now x y s.users.enum s r hr
  · intro c now u prev req es rs T h1 h2 h3 h4 h5 h6
    exact stepRequest_finite_start c now u prev req es rs T h1 h2 h3 h4 h5 h6

/-- Witness for C9: the concrete pending request `wPend` (finite start 0)
starts traveling at clock 5 with no predecessor, and a request surviving a
click on a busy user was already in the list. -/
theorem claim_C9_witness :
    (stepRequest ANIM_CONFIG 5 1 none wPend [false] [false]).1.state = .traveling_to_edge ∧
    (wReq ∈ sStoring.requests ∨ (wReq.startAt = .fin 5 ∧ wReq.state = .pending)) :=
  ⟨claim_C9.2 ANIM_CONFIG 5 1 none wPend [false] [false] 0 rfl rfl (by norm_num)
      (by decide) (by decide) (by decide),
    claim_C9.1 ANIM_CONFIG 5 48 108 sStoring wReq (by decide!)⟩

/-- Claim C10: `destroy` sets the `destroyed` flag; a destroyed animator
ignores `play()` (`startLoop`) and canvas clicks entirely (so no new frame is
ever scheduled), and no modeled operation ever clears the flag. -/
theorem claim_C10 :
    (∀ s : AnimState, (destroy s).destroyed = true) ∧
    (∀ (c : AnimConfig) (now : ℚ) (s : AnimState), s.destroyed = true →
      startLoop c now s = s) ∧
    (∀ (c : AnimConfig) (now x y : ℚ) (s : AnimState), s.destroyed = true →
      onCanvasClick c now x y s = s) ∧
    (∀ (c : AnimConfig) (now x y : ℚ) (s : AnimState),
      (setupRun c now s).destroyed = s.destroyed ∧
      (pauseLoop s).destroyed = s.destroyed ∧
      (restart c now s).destroyed = s.destroyed ∧
      (startLoop c now s).destroyed = s.destroyed ∧
      (renderFrame c now s).destroyed = s.destroyed ∧
      (clearCache c now s).destroyed = s.destroyed ∧
      (invalidateAllCaches c now s).destroyed = s.destroyed ∧
      (onCanvasClick c now x y s).destroyed = s.destroyed) := by
  refine ⟨fun s => (destroy_flags s).2.2, ?_, ?_, ?_⟩
  · intro c now s h
    unfold startLoop
    rw [if_pos (Or.inr h)]
  · intro c now x y s h
    unfold onCanvasClick
    rw [if_pos h]
  · intro c now x y s
    exact ⟨rfl, (pauseLoop_fields s).2.2.1, (restart_flags c now s).2.2,
      (startLoop_flags c now s).2.2, renderFrame_destroyed c now s,
      clearCache_destroyed c now s, (invalidateAllCaches_flags c now s).2.2.1,
      (onCanvasClick_flags c now x y s).2.2⟩

/-- Witness for C10: the destroyed idle state absorbs `startLoop` and clicks. -/
theorem claim_C10_witness :
    startLoop ANIM_CONFIG 0 sDestroyed = sDestroyed ∧
      onCanvasClick ANIM_CONFIG 0 0 0 sDestroyed = sDestroyed :=
  ⟨claim_C10.2.1 ANIM_CONFIG 0 sDestroyed rfl,
    claim_C10.2.2.1 ANIM_CONFIG 0 0 0 sDestroyed rfl⟩

/-- Claim C1 (amended): the cached flags are mutated exactly as follows.
`processRequests` flips a flag false→true only through a store completion
(a request in `storing_edge`/`storing_regional` whose progress reached 1)
and never clears one; `processInvalidations` flips a flag true→false only
through an invalidation-pulse completion and never sets one; `clearCache`
additionally resets every flag to false before running one frame; and no
other operation (`setupRun`, `startLoop`, `pauseLoop`, `restart`,
`invalidateAllCaches`, `onCanvasClick`, `destroy`, the resize rebuild)
changes any flag. -/
theorem claim_C1 :
    (∀ (c : AnimConfig) (now : ℚ) (s : AnimState) (i : ℤ),
      jsGet (processRequests c now s).edges i = some true →
      jsGet s.edgesState i = some true ∨
        ∃ r ∈ s.requests, r.state = .storing_edge ∧ r.edgeIndex = i ∧
          1 ≤ progressAt now r.t0 (getDurationForState c .storing_edge)) ∧
    (∀ (c : AnimConfig) (now : ℚ) (s : AnimState) (i : ℤ),
      jsGet (processRequests c now s).regionals i = some true →
      jsGet s.regionalState i = some true ∨
        ∃ r ∈ s.requests, r.state = .storing_regional ∧ r.regionalIndex = i ∧
          1 ≤ progressAt now r.t0 (getDurationForState c .storing_regional)) ∧
    (∀ (c : AnimConfig) (now : ℚ) (s : AnimState) (i : ℤ),
      jsGet s.edgesState i = some true →
      jsGet (processRequests c now s).edges i = some true) ∧
    (∀ (c : AnimConfig) (now : ℚ) (s : AnimState) (i : ℤ),
      jsGet s.regionalState i = some true →
      jsGet (processRequests c now s).regionals i = some true) ∧
    (∀ (c : AnimConfig) (now : ℚ) (s : AnimState) (i : ℤ),
      jsGet (processInvalidations c now s).edges i = some false →
      jsGet s.edgesState i = some false ∨
        ∃ inv ∈ s.invalidations, inv.type = .edge ∧ inv.targetIndex = i ∧
          inv.state = .pulsing ∧ 1 ≤ progressAt now inv.startTime inv.duration) ∧
    (∀ (c : AnimConfig) (now : ℚ) (s : AnimState) (i : ℤ),
      jsGet (processInvalidations c now s).regionals i = some false →
      jsGet s.regionalState i = some false ∨
        ∃ inv ∈ s.invalidations, inv.type = .regional ∧ inv.targetIndex = i ∧
          inv.state = .pulsing ∧ 1 ≤ progressAt now inv.startTime inv.duration) ∧
    (∀ (c : AnimConfig) (now : ℚ) (s : AnimState) (i : ℤ),
      jsGet s.edgesState i = some false →
      jsGet (processInvalidations c now s).edges i = some false) ∧
    (∀ (c : AnimConfig) (now : ℚ) (s : AnimState) (i : ℤ),
      jsGet s.regionalState i = some false →
      jsGet (processInvalidations c now s).regionals i = some false) ∧
    (∀ (c : AnimConfig) (now x y : ℚ) (s : AnimState),
      (setupRun c now s).edgesState = s.edgesState ∧
      (setupRun c now s).regionalState = s.regionalState ∧
      (startLoop c now s).edgesState = s.edgesState ∧
      (startLoop c now s).regionalState = s.regionalState ∧
      (pauseLoop s).edgesState = s.edgesState ∧
      (pauseLoop s).regionalState = s.regionalState ∧
      (restart c now s).edgesState = s.edgesState ∧
      (restart c now s).regionalState = s.regionalState ∧
      (invalidateAllCaches c now s).edgesState = s.edgesState ∧
      (invalidateAllCaches c now s).regionalState = s.regionalState ∧
      (onCanvasClick c now x y s).edgesState = s.edgesState ∧
      (onCanvasClick c now x y s).regionalState = s.regionalState ∧
      (destroy s).edgesState = s.edgesState ∧
      (destroy s).regionalState = s.regionalState) ∧
    (∀ (old : List Bool) (count : ℕ) (i : ℤ), 0 ≤ i → i < (count : ℤ) →
      jsGet (sizeCanvasFlags old count) i = some ((jsGet old i).getD false)) ∧
    (∀ (c : AnimConfig) (now : ℚ) (s : AnimState),
      clearCache c now s = renderFrame c now
        { s with edgesState := s.edgesState.map fun _ => false,
                 regionalState := s.regionalState.map fun _ => false,
                 replayTimer := false, isFinished := true }) := by
  refine ⟨?_, ?_, ?_, ?_, ?_, ?_, ?_, ?_, ?_, ?_, fun c now s => rfl⟩
  · intro c now s i h
    exact processRequestsAux_edges_flip c now s.users.length s.requests none
      s.edgesState s.regionalState i h
  · intro c now s i h
    exact processRequestsAux_regionals_flip c now s.users.length s.requests none
      s.edgesState s.regionalState i h
  · intro c now s i h
    exact processRequestsAux_edges_mono c now s.users.length s.requests none
      s.edgesState s.regionalState i h
  · intro c now s i h
    exact processRequestsAux_regionals_mono c now s.users.length s.requests none
      s.edgesState s.regionalState i h
  · intro c now s i h
    exact processInvalidationsAux_edges_flip c now s.invalidations
      s.edgesState s.regionalState i h
  · intro c now s i h
    exact processInvalidationsAux_regionals_flip c now s.invalidations
      s.edgesState s.regionalState i h
  · intro c now s i h
    exact processInvalidationsAux_edges_mono_false c now s.invalidations
      s.edgesState s.regionalState i h
  · intro c now s i h
    exact processInvalidationsAux_regionals_mono_false c now s.invalidations
      s.edgesState s.regionalState i h
  · intro c now x y s
    exact ⟨rfl, rfl, (startLoop_flags c now s).1, (startLoop_flags c now s).2.1,
      (pauseLoop_fields s).1, (pauseLoop_fields s).2.1,
      (restart_flags c now s).1, (restart_flags c now s).2.1,
      (invalidateAllCaches_flags c now s).1, (invalidateAllCaches_flags c now s).2.1,
      (onCanvasClick_flags c now x y s).1, (onCanvasClick_flags c now x y s).2.1,
      (destroy_flags s).1, (destroy_flags s).2.1⟩
  · intro old count i h0 h
    exact jsGet_sizeCanvasFlags old count i h0 h

/-- Witness for C1: at clock 1000 the state `sStoring` warms edge 0, and the
theorem locates the responsible store completion. -/
theorem claim_C1_witness :
    jsGet sStoring.edgesState 0 = some true ∨
      ∃ r ∈ sStoring.requests, r.state = .storing_edge ∧ r.edgeIndex = 0 ∧
        1 ≤ progressAt 1000 r.t0 (getDurationForState ANIM_CONFIG .storing_edge) :=
  claim_C1.1 ANIM_CONFIG 1000 sStoring 0 (by decide!)

/-- Counterexample for C1 as frozen: `clearCache` flips edge 0 from cached to
uncached although no invalidation event exists at all, so the flag is not
mutated exclusively by store completions and invalidation pulses. -/
theorem claim_C1_counterexample :
    sWarmIdle.edgesState = [true] ∧ sWarmIdle.invalidations = [] ∧
      sWarmIdle.requests = [] ∧
      (clearCache ANIM_CONFIG 0 sWarmIdle).edgesState = [false] := by
  decide!

/-- Claim C4 (amended): `invalidateAllCaches` with every cache cold enqueues
no invalidation event and leaves the flags, requests and invalidations
untouched; when the loop is playing the state is entirely unchanged, but
when it is paused the call clears `isFinished` and resumes the loop. -/
theorem claim_C4 (c : AnimConfig) (now : ℚ) (s : AnimState)
    (he : ∀ b ∈ s.edgesState, b = false) (hr : ∀ b ∈ s.regionalState, b = false) :
    (invalidateAllCaches c now s).invalidations = s.invalidations ∧
    (invalidateAllCaches c now s).edgesState = s.edgesState ∧
    (invalidateAllCaches c now s).regionalState = s.regionalState ∧
    (invalidateAllCaches c now s).requests = s.requests ∧
    (s.isPlaying = true → invalidateAllCaches c now s = s) ∧
    (s.isPlaying = false →
      invalidateAllCaches c now s = startLoop c now { s with isFinished := false }) := by
  have hreg : s.regionalState.enum.filterMap (fun p =>
      if p.2 = true then
        some ({ type := .regional, targetIndex := (p.1 : ℤ), startTime := now,
                duration := 800, state := .traveling } : Invalidation)
      else none) = [] :=
    enum_filterMap_nil _ _ (fun p hp => by rw [hp]; simp) hr
  have hedg : s.edgesState.enum.filterMap (fun p =>
      if p.2 = true then
        some ({ type := .edge, targetIndex := (p.1 : ℤ), startTime := now,
                duration := 800 + 400, state := .traveling } : Invalidation)
      else none) = [] :=
    enum_filterMap_nil _ _ (fun p hp => by rw [hp]; simp) he
  have hiac : invalidateAllCaches c now s =
      (if s.isPlaying = false then startLoop c now { s with isFinished := false }
        else s) := by
    simp only [invalidateAllCaches, hreg, hedg, List.append_nil]
  rw [hiac]
  by_cases hp : s.isPlaying = false
  · rw [if_pos hp]
    rcases startLoop_unfinished_fields c now { s with isFinished := false } rfl with
      ⟨g1, g2, g3, g4⟩
    refine ⟨g1, g2, g3, g4, ?_, fun _ => rfl⟩
    intro ht
    rw [hp] at ht
    exact absurd ht (by simp)
  · rw [if_neg hp]
    exact ⟨rfl, rfl, rfl, rfl, fun _ => rfl, fun hf => absurd hf hp⟩

/-- Witness for C4: the cold paused state gets zero events and resumes. -/
theorem claim_C4_witness :
    (invalidateAllCaches ANIM_CONFIG 5 sColdIdle).invalidations =
        sColdIdle.invalidations ∧
      invalidateAllCaches ANIM_CONFIG 5 sColdIdle =
        startLoop ANIM_CONFIG 5 { sColdIdle with isFinished := false } :=
  ⟨(claim_C4 ANIM_CONFIG 5 sColdIdle (by decide) (by decide)).1,
    (claim_C4 ANIM_CONFIG 5 sColdIdle (by decide) (by decide)).2.2.2.2.2 rfl⟩

/-- Counterexample for C4 as frozen: with zero cached nodes the call enqueues
zero events, yet the state record does change — the paused loop is resumed
(`isPlaying`, `isFinished`, `rafId` all flip). -/
theorem claim_C4_counterexample :
    (∀ b ∈ sColdIdle.edgesState, b = false) ∧
      (∀ b ∈ sColdIdle.regionalState, b = false) ∧
      (invalidateAllCaches ANIM_CONFIG 5 sColdIdle).invalidations = [] ∧
      invalidateAllCaches ANIM_CONFIG 5 sColdIdle ≠ sColdIdle := by
  decide

/-- Claim C5 (amended): `Math.min(edgesCount - 1, map[i])` clamps a
configured `userEdgeMap` value only from above, so the assigned index lies in
`[0, edgesCount)` for every nonnegative configured value (out-of-range values
above included), and in particular for the whole shipped configuration; a
negative configured value passes through unclamped. -/
theorem claim_C5 :
    (∀ (c : AnimConfig) (i : ℕ) (v : ℤ), c.userEdgeMap.get? i = some v →
      0 ≤ v → 1 ≤ c.edgesCount →
      0 ≤ assignEdgeIndexCalc c i ∧ assignEdgeIndexCalc c i < (c.edgesCount : ℤ)) ∧
    (∀ i : ℕ, i < ANIM_CONFIG.usersCount →
      0 ≤ assignEdgeIndexCalc ANIM_CONFIG i ∧
        assignEdgeIndexCalc ANIM_CONFIG i < (ANIM_CONFIG.edgesCount : ℤ)) := by
  constructor
  · intro c i v hget hv hcnt
    have hcalc : assignEdgeIndexCalc c i = min ((c.edgesCount : ℤ) - 1) v := by
      unfold assignEdgeIndexCalc
      rw [hget]
    rw [hcalc]
    constructor
    · exact le_min (by omega) hv
    · exact lt_of_le_of_lt (min_le_left _ _) (by omega)
  · intro i hi
    have h4 : i < 4 := hi
    interval_cases i <;> exact ⟨by decide, by decide⟩

/-- Witness for C5: the shipped map value for user 0 yields index 0 ∈ [0, 3). -/
theorem claim_C5_witness :
    0 ≤ assignEdgeIndexCalc ANIM_CONFIG 0 ∧
      assignEdgeIndexCalc ANIM_CONFIG 0 < (ANIM_CONFIG.edgesCount : ℤ) :=
  claim_C5.1 ANIM_CONFIG 0 0 (by decide) (by decide) (by decide)

/-- Counterexample for C5 as frozen: the configured map value `-1` is not
clamped below — the assigned edge index is `-1`, outside `[0, edgesCount)`. -/
theorem claim_C5_counterexample :
    assignEdgeIndexCalc { ANIM_CONFIG with userEdgeMap := [-1] } 0 = -1 ∧
      ¬ 0 ≤ assignEdgeIndexCalc { ANIM_CONFIG with userEdgeMap := [-1] } 0 := by
  decide

/-- Claim C8: a click on a user that already has a non-done request adds no
request for that user (the per-user request list is unchanged), and a click
preserves "at most one non-done request per user". -/
theorem claim_C8 :
    (∀ (c : AnimConfig) (now x y : ℚ) (s : AnimState) (i : ℤ),
      s.requests.any (inFlightFor i) = true →
      (onCanvasClick c now x y s).requests.filter (byUser i) =
        s.requests.filter (byUser i)) ∧
    (∀ (c : AnimConfig) (now x y : ℚ) (s : AnimState),
      (∀ i : ℤ, s.requests.countP (inFlightFor i) ≤ 1) →
      ∀ i : ℤ, (onCanvasClick c now x y s).requests.countP (inFlightFor i) ≤ 1) := by
  constructor
  · intro c now x y s i h
    unfold onCanvasClick
    split_ifs with hd
    · rfl
    · exact (clickFold_inflight c now x y i s.users.enum s h).1
  · intro c now x y s h i
    unfold onCanvasClick
    split_ifs with hd
    · exact h i
    · exact clickFold_count c now x y s.users.enum s h i

/-- Witness for C8: clicking inside user 0's circle while its request is
still storing leaves user 0's request list unchanged, and the one-per-user
bound is preserved. -/
theorem claim_C8_witness :
    (onCanvasClick ANIM_CONFIG 5 48 108 sStoring).requests.filter (byUser 0) =
        sStoring.requests.filter (byUser 0) ∧
      (onCanvasClick ANIM_CONFIG 5 48 108 sStoring).requests.countP
          (inFlightFor 0) ≤ 1 :=
  ⟨claim_C8.1 ANIM_CONFIG 5 48 108 sStoring 0 (by decide),
    claim_C8.2 ANIM_CONFIG 5 48 108 sStoring
      (by
        intro i
        show List.countP (inFlightFor i) [wReq] ≤ 1
        simp only [List.countP_cons, List.countP_nil, Nat.zero_add]
        split_ifs <;> omega) 0⟩

/-- The replay timer after the termination branch. -/
lemma finishStep_replayTimer (s2 : AnimState) :
    (finishStep s2).replayTimer = true ↔
      (s2.replayTimer = true ∨
        (s2.isFinished = false ∧ s2.runIndex = 1 ∧
          ((s2.edgesState.any fun b => b) || (s2.regionalState.any fun b => b)) = true ∧
          0 < s2.requests.length)) := by
  simp only [finishStep]
  split_ifs with h1 h2
  · rw [(pauseLoop_fields _).2.2.2.2.2.1]
    constructor
    · intro _
      exact Or.inr ⟨h1, h2.1, h2.2.2.1, h2.2.2.2⟩
    · intro _
      rfl
  · rw [(pauseLoop_fields _).2.2.2.2.2.1]
    show s2.replayTimer = true ↔ _
    constructor
    · exact Or.inl
    · rintro (h | ⟨-, hrun, hcache, hlen⟩)
      · exact h
      · cases hb : s2.replayTimer with
        | true => rfl
        | false => exact absurd ⟨hrun, hb, hcache, hlen⟩ h2
  · constructor
    · exact Or.inl
    · rintro (h | ⟨hf, -⟩)
      · exact h
      · exact absurd hf h1

/-- Claim C6 (amended): on a frame with a nonempty request list, the
auto-replay timer ends up pending exactly when it already was pending, or
when the frame finds no active request or invalidation, the run was not yet
marked finished, the run index is 1, and at least one cache entry is warm
when the run finishes (whether or not it became warm during that run).  In
particular a run whose index is not 1 never schedules an auto-replay. -/
theorem claim_C6 (c : AnimConfig) (now : ℚ) (s : AnimState)
    (hreq : s.requests ≠ []) :
    (renderFrame c now s).replayTimer = true ↔
      (s.replayTimer = true ∨
        ((frameCore c now s).2 = 0 ∧ s.isFinished = false ∧ s.runIndex = 1 ∧
          (((frameCore c now s).1.edgesState.any fun b => b) ||
            ((frameCore c now s).1.regionalState.any fun b => b)) = true)) := by
  rcases frameCore_fields c now s with ⟨f1, f2, f3, -, -, -, f7⟩
  have hrf : renderFrame c now s =
      (if 0 < (frameCore c now s).2 then { (frameCore c now s).1 with rafId := true }
       else finishStep (frameCore c now s).1) := by
    simp only [renderFrame]
    rw [if_neg (show ¬(s.requests = [] ∧ s.isFinished = false ∧
      s.invalidations = []) from fun hand => hreq hand.1)]
  rw [hrf]
  by_cases hact : 0 < (frameCore c now s).2
  · rw [if_pos hact]
    show (frameCore c now s).1.replayTimer = true ↔ _
    rw [f1]
    constructor
    · exact Or.inl
    · rintro (h | ⟨h0, -⟩)
      · exact h
      · exact absurd h0 (by omega)
  · rw [if_neg hact, finishStep_replayTimer, f1, f2, f3, f7]
    have h0 : (frameCore c now s).2 = 0 := by omega
    have hlen : 0 < s.requests.length := List.length_pos.mpr hreq
    constructor
    · rintro (h | ⟨hf, hr, hc, -⟩)
      · exact Or.inl h
      · exact Or.inr ⟨h0, hf, hr, hc⟩
    · rintro (h | ⟨-, hf, hr, hc⟩)
      · exact Or.inl h
      · exact Or.inr ⟨hf, hr, hc, hlen⟩

/-- Witness for C6: the frame at clock 2000 on `sRunDone` (run index 1, all
requests done, edge 0 warm) satisfies the characterization. -/
theorem claim_C6_witness :
    sRunDone.requests ≠ [] ∧
      ((renderFrame ANIM_CONFIG 2000 sRunDone).replayTimer = true ↔
        (sRunDone.replayTimer = true ∨
          ((frameCore ANIM_CONFIG 2000 sRunDone).2 = 0 ∧ sRunDone.isFinished = false ∧
            sRunDone.runIndex = 1 ∧
            (((frameCore ANIM_CONFIG 2000 sRunDone).1.edgesState.any fun b => b) ||
              ((frameCore ANIM_CONFIG 2000 sRunDone).1.regionalState.any fun b => b))
              = true))) :=
  ⟨by decide, claim_C6 ANIM_CONFIG 2000 sRunDone (by decide)⟩

/-- Counterexample for C6 as frozen: `cfRestartWarm` is reached by running
the first simulation to completion (`cfAfterRun1`, which warms all caches)
and then pressing restart, so its run index is 1 again while every cache is
already warm.  During the whole ensuing run (`warmRunTrace`) no cached flag
ever changes — no cache entry becomes warm during that run — yet the run
still ends with the auto-replay timer scheduled, because the code tests
"some cache is warm now", not "some cache became warm during this run". -/
theorem claim_C6_counterexample :
    cfRestartWarm.runIndex = 1 ∧
      cfRestartWarm.replayTimer = false ∧
      (warmRunTrace.getLast?.map fun st => st.replayTimer) = some true ∧
      warmRunTrace.all (fun st => decide (st.edgesState = cfRestartWarm.edgesState ∧
        st.regionalState = cfRestartWarm.regionalState)) = true := by
  decide!

end Slide20
